import Mathlib

/-!
# Armament: weapon hardpoints, reload counters and streaming; wormhole links

A shallow embedding of `Armament.cpp`, and of `Wormhole.cpp` (the link map of a
wormhole, loaded from a data node or generated from a planet).  Numbers of type
`double` are modelled by an arbitrary linearly ordered field `F` with a floor
function (exact arithmetic); a second embedding of `RendevousTime` follows the
arithmetic of binary64, where every operation rounds.  The integer counters
(`int reload`, the values of `streamReload`) are modelled by `Int`.  A conversion
from `double` to `int` truncates toward zero and yields `INT_MIN` when the result
does not fit, as the x86-64 conversion does; sums and differences of `int` values
are taken without overflow.  The classes `Point`, `Angle`, `Outfit`, `Ship`,
`Projectile` and `Effect` are declared outside `Armament.cpp`; what the code uses of
them is modelled below, and the transcendental functions are parameters.
-/

namespace EndlessSky

/-! ## Numbers -/

/-- Result of a `double` computation that may leave the finite numbers. -/
inductive Dbl (F : Type) where
  | fin (x : F)
  | posInf
  | negInf
  | nan
deriving DecidableEq

section Numbers

variable {F : Type} [LinearOrderedField F]

/-- The integral part of a `double`: the number rounded toward zero. -/
def trunc [FloorRing F] (x : F) : Int :=
  if 0 ≤ x then ⌊x⌋ else ⌈x⌉

/-- Conversion of a `double` to `int`: the integral part, when it lies in the range
of `int`.  Outside that range C++ leaves the conversion undefined; the model gives
it the value that the x86-64 conversion instruction (`cvttsd2si`) produces there,
`INT_MIN`. -/
def toInt [FloorRing F] (x : F) : Int :=
  if -2 ^ 31 ≤ trunc x ∧ trunc x < 2 ^ 31 then trunc x else -2 ^ 31

/-- The compound assignment `n += x` on an `int` lvalue with a `double` operand:
the sum is formed in `double` and converted back. -/
def addAssign [FloorRing F] (n : Int) (x : F) : Int :=
  toInt ((n : F) + x)

/-- The quotient `x / y` of two finite doubles, with the IEEE results for a zero
divisor (the divisor zero is taken as positive zero). -/
def Dbl.div (x y : F) : Dbl F :=
  if y = 0 then
    if x = 0 then Dbl.nan else if 0 < x then Dbl.posInf else Dbl.negInf
  else Dbl.fin (x / y)

/-- The comparison `r >= 0.`; false on NaN. -/
def Dbl.ge0 : Dbl F → Bool
  | Dbl.fin x => decide (0 ≤ x)
  | Dbl.posInf => true
  | Dbl.negInf => false
  | Dbl.nan => false

/-- The comparison `x < y`; false whenever an operand is NaN. -/
def Dbl.lt : Dbl F → Dbl F → Bool
  | Dbl.fin x, Dbl.fin y => decide (x < y)
  | Dbl.fin _, Dbl.posInf => true
  | Dbl.negInf, Dbl.fin _ => true
  | Dbl.negInf, Dbl.posInf => true
  | _, _ => false

/-- The function `std::min(a, b)`, which is `(b < a) ? b : a`. -/
def Dbl.min (a b : Dbl F) : Dbl F :=
  if Dbl.lt b a then b else a

/-- The function `std::max(a, b)`, which is `(a < b) ? b : a`. -/
def Dbl.max (a b : Dbl F) : Dbl F :=
  if Dbl.lt a b then b else a

/-- Product of a possibly non-finite double with a finite non-zero factor `k > 0`. -/
def Dbl.scale (k : F) : Dbl F → Dbl F
  | Dbl.fin x => Dbl.fin (x * k)
  | d => d

end Numbers

/-! ## Points, outfits, hosts -/

/-- Modelled from the spec: the class `Point`, a pair of coordinates. -/
structure Point (F : Type) where
  X : F
  Y : F
deriving DecidableEq

section Points

variable {F : Type} [LinearOrderedField F]

/-- Modelled from the spec: the sum of two points (`operator+` of `Point`). -/
def Point.add (p q : Point F) : Point F :=
  ⟨p.X + q.X, p.Y + q.Y⟩

/-- Modelled from the spec: the difference of two points (`operator-` of `Point`). -/
def Point.sub (p q : Point F) : Point F :=
  ⟨p.X - q.X, p.Y - q.Y⟩

/-- Modelled from the spec: the product of a point with a scalar (`operator*`). -/
def Point.scale (p : Point F) (k : F) : Point F :=
  ⟨p.X * k, p.Y * k⟩

/-- Modelled from the spec: the dot product `p.Dot(q)`. -/
def Point.Dot (p q : Point F) : F :=
  p.X * q.X + p.Y * q.Y

end Points

/-- Modelled from the spec: a weapon type (`Outfit`).  The field `id` stands for the
address of the outfit, so that two outfits with equal attributes remain distinct
keys.  `turretMounts` is `Get("turret mounts")`; the other numeric fields are the
values of `WeaponGet` at the key of the same name.  `Ammo` identifies the kind of
ammunition the weapon consumes, if any. -/
structure Outfit (F : Type) where
  id : Nat
  IsWeapon : Bool
  turretMounts : F
  homing : F
  antiMissile : F
  missileStrength : F
  reload : F
  velocity : F
  lifetime : F
  range : F
  firingForce : F
  HitEffects : List (Nat × Int)
  Ammo : Option Nat
deriving DecidableEq

/-- Modelled from the spec: the mathematical library (`sqrt`, `asin`, `atan2`,
`M_PI`) and the operations of the classes `Angle` and `Point` that are declared
outside `Armament.cpp`; `A` is the type of angles. -/
structure Geometry (F A : Type) where
  sqrt : F → F
  asin : F → F
  atan2 : F → F → F
  M_PI : F
  Angle : Dbl F → A
  zero : A
  add : A → A → A
  Rotate : A → Point F → Point F
  Unit : A → Point F
  pointUnit : Point F → Point F

/-- Modelled from the spec: the length `p.Length()` of a point. -/
def Point.Length {F A : Type} [LinearOrderedField F] (G : Geometry F A) (p : Point F) : F :=
  G.sqrt (p.Dot p)

/-- The function `asin` on a possibly non-finite argument: NaN outside `[-1, 1]`. -/
def Dbl.asin {F A : Type} [LinearOrderedField F] (G : Geometry F A) : Dbl F → Dbl F
  | Dbl.fin x => if -1 ≤ x ∧ x ≤ 1 then Dbl.fin (G.asin x) else Dbl.nan
  | _ => Dbl.nan

/-- Modelled from the spec: what a turret reads of the targeted ship. -/
structure Target (F : Type) where
  Position : Point F
  Velocity : Point F

/-- Modelled from the spec: the host unit (`Ship`), as far as the armament uses it.
`force` accumulates the arguments of `ApplyForce`; `ammo` is the stock of each kind
of ammunition. -/
structure Ship (F A : Type) where
  Position : Point F
  Velocity : Point F
  Facing : A
  GetTargetShip : Option (Target F)
  OutfitCount : Outfit F → Int
  force : Point F
  ammo : Nat → Int

/-- Modelled from the spec: `Ship::ApplyForce` accumulates an impulse. -/
def Ship.ApplyForce {F A : Type} [LinearOrderedField F] (ship : Ship F A) (f : Point F) :
    Ship F A :=
  { ship with force := ship.force.add f }

/-- Modelled from the spec: `Ship::ExpendAmmo` takes one unit of the ammunition of
the weapon from the stock; nothing happens for a weapon without ammunition. -/
def Ship.ExpendAmmo {F A : Type} (ship : Ship F A) (outfit : Outfit F) : Ship F A :=
  match outfit.Ammo with
  | none => ship
  | some k => { ship with ammo := Function.update ship.ammo k (ship.ammo k - 1) }

/-- Modelled from the spec: a projectile, built from the firing host, the origin,
the aim and the weapon type. -/
structure Projectile (F A : Type) where
  ship : Ship F A
  position : Point F
  angle : A
  weapon : Outfit F

/-- Modelled from the spec: the current position `projectile.Position()`. -/
def Projectile.Position {F A : Type} (p : Projectile F A) : Point F :=
  p.position

/-- Modelled from the spec: the missile strength of a projectile is the
"missile strength" attribute of its weapon, as an `int`. -/
def Projectile.MissileStrength {F A : Type} [LinearOrderedField F] [FloorRing F]
    (p : Projectile F A) : Int :=
  toInt p.weapon.missileStrength

/-- Modelled from the spec: a visual effect, a copy of a template, with the
arguments of `Place` once it has been placed. -/
structure Effect (F A : Type) where
  template : Nat
  placed : Option (Point F × Point F × A)
deriving DecidableEq

/-- Modelled from the spec: the call `effect.Place(position, velocity, angle)`. -/
def Effect.Place {F A : Type} (e : Effect F A) (position velocity : Point F) (angle : A) :
    Effect F A :=
  { e with placed := some (position, velocity, angle) }

/-! ## Members of `Armament::Weapon` -/

section Slots

variable {F A : Type} [LinearOrderedField F]

/-- The function `Armament::RendevousTime`: the time a projectile of speed `vp`
needs to meet a target at relative position `p` moving with relative velocity `v`. -/
def RendevousTime (G : Geometry F A) (p v : Point F) (vp : F) : Dbl F :=
  let a := v.Dot v - vp * vp
  let b := 2 * p.Dot v
  let c := p.Dot p
  let discriminant := b * b - 4 * a * c
  if discriminant < 0 then Dbl.nan
  else
    let discriminant := G.sqrt discriminant
    let r1 := Dbl.div (-b + discriminant) (2 * a)
    let r2 := Dbl.div (-b - discriminant) (2 * a)
    if r1.ge0 && r2.ge0 then Dbl.min r1 r2
    else if r1.ge0 || r2.ge0 then Dbl.max r1 r2
    else Dbl.nan

/-- A weapon slot (`Armament::Weapon`): the installed outfit (`none` for the null
pointer), the mount point, the convergence angle, the reload counter and the
turret flag. -/
structure Weapon (F A : Type) where
  outfit : Option (Outfit F)
  point : Point F
  angle : A
  reload : Int
  isTurret : Bool
deriving DecidableEq

/-- The constructor `Weapon(point, isTurret)`: an empty slot at half the point. -/
def Weapon.create (G : Geometry F A) (point : Point F) (isTurret : Bool) : Weapon F A :=
  { outfit := none, point := point.scale (1 / 2), angle := G.zero, reload := 0,
    isTurret := isTurret }

/-- The accessor `GetOutfit`. -/
def Weapon.GetOutfit (w : Weapon F A) : Option (Outfit F) :=
  w.outfit

/-- The accessor `GetPoint`. -/
def Weapon.GetPoint (w : Weapon F A) : Point F :=
  w.point

/-- The accessor `GetAngle`. -/
def Weapon.GetAngle (w : Weapon F A) : A :=
  w.angle

/-- The accessor `IsTurret`. -/
def Weapon.IsTurret (w : Weapon F A) : Bool :=
  w.isTurret

/-- The query `IsHoming`: `outfit && outfit->WeaponGet("homing")`. -/
def Weapon.IsHoming (w : Weapon F A) : Bool :=
  match w.outfit with
  | none => false
  | some o => decide (o.homing ≠ 0)

/-- The query `IsAntiMissile`: `outfit && outfit->WeaponGet("anti-missile") >= 1.`. -/
def Weapon.IsAntiMissile (w : Weapon F A) : Bool :=
  match w.outfit with
  | none => false
  | some o => decide (1 ≤ o.antiMissile)

/-- The query `IsReady`: `outfit && reload <= 0`. -/
def Weapon.IsReady (w : Weapon F A) : Bool :=
  w.outfit.isSome && decide (w.reload ≤ 0)

/-- The method `Weapon::Step`: `if(reload) --reload;`. -/
def Weapon.Step (w : Weapon F A) : Weapon F A :=
  if w.reload ≠ 0 then { w with reload := w.reload - 1 } else w

/-- The aim of a turret with a target: lead the target by the rendezvous time when
that time is below the lifetime of the projectile, else aim at its position. -/
def Weapon.turretAim (G : Geometry F A) (outfit : Outfit F) (ship : Ship F A)
    (start : Point F) (target : Target F) : A :=
  let p := target.Position.sub start
  let v := target.Velocity.sub ship.Velocity
  let steps := RendevousTime G p v outfit.velocity
  let p :=
    if Dbl.lt steps (Dbl.fin outfit.lifetime) then
      match steps with
      | Dbl.fin t => p.add (v.scale t)
      | _ => p
    else p
  G.Angle (Dbl.fin (180 / G.M_PI * G.atan2 p.X (-p.Y)))

/-- The method `Weapon::Fire`.  The result is `none` when the slot is empty, where
the code dereferences a null pointer; otherwise the slot, the host and the
projectile list after the shot. -/
def Weapon.Fire [FloorRing F] (G : Geometry F A) (w : Weapon F A) (ship : Ship F A)
    (projectiles : List (Projectile F A)) :
    Option (Weapon F A × Ship F A × List (Projectile F A)) :=
  match w.outfit with
  | none => none
  | some outfit =>
    let aim := ship.Facing
    let start := (ship.Position.add (G.Rotate aim w.point)).sub (ship.Velocity.scale (1 / 2))
    let aim :=
      match w.isTurret, ship.GetTargetShip with
      | true, some target => Weapon.turretAim G outfit ship start target
      | _, _ => G.add aim w.angle
    let projectiles := projectiles ++ [⟨ship, start, aim, outfit⟩]
    let force := outfit.firingForce
    let ship := if force ≠ 0 then ship.ApplyForce ((G.Unit aim).scale (-force)) else ship
    some ({ w with reload := addAssign w.reload outfit.reload }, ship.ExpendAmmo outfit,
      projectiles)

/-- The effects an anti-missile shot appends: every hit effect of the outfit, as
many copies as its count says, each placed at `start`. -/
def hitEffects (outfit : Outfit F) (start velocity : Point F) (aim : A) :
    List (Effect F A) :=
  outfit.HitEffects.flatMap fun eit =>
    List.replicate eit.2.toNat (Effect.Place ⟨eit.1, none⟩ start velocity aim)

/-- The method `Weapon::FireAntiMissile`.  `rand1` and `rand2` are the values of the
two calls of `rand()`, taken modulo the strength and modulo the missile strength
of the projectile.  The result is `none` where the code has no defined result: on
an empty slot, and on the integer remainder by a missile strength of zero. -/
def Weapon.FireAntiMissile [FloorRing F] (G : Geometry F A) (w : Weapon F A) (ship : Ship F A)
    (projectile : Projectile F A) (effects : List (Effect F A)) (rand1 rand2 : Nat) :
    Option (Bool × Weapon F A × Ship F A × List (Effect F A)) :=
  match w.outfit with
  | none => none
  | some outfit =>
    let strength : Int := toInt outfit.antiMissile
    if strength = 0 then some (false, w, ship, effects)
    else
      let range := outfit.velocity
      let start := ship.Position.add (G.Rotate ship.Facing w.point)
      let offset := projectile.Position.sub start
      if offset.Length G > range then some (false, w, ship, effects)
      else
        let start := start.add ((G.pointUnit offset).scale (1 / 2 * range))
        let aim := G.Angle (Dbl.fin (180 / G.M_PI * G.atan2 offset.X (-offset.Y)))
        let effects := effects ++ hitEffects outfit start ship.Velocity aim
        let w := { w with reload := addAssign w.reload outfit.reload }
        let ship := ship.ExpendAmmo outfit
        if projectile.MissileStrength = 0 then none
        else
          some (decide (Int.tmod rand1 strength > Int.tmod rand2 projectile.MissileStrength),
            w, ship, effects)

/-- The convergence angle of a gun with mount point `point` for a weapon of the
given range, in degrees: `asin(point.X() * .5 / d) * (180. / M_PI)` with
`d = range * .9`. -/
def convergence (G : Geometry F A) (point : Point F) (range : F) : Dbl F :=
  let d := range * (9 / 10)
  Dbl.scale (180 / G.M_PI) (Dbl.asin G (Dbl.div (point.X * (1 / 2)) d))

/-- The method `Weapon::Install`. -/
def Weapon.Install (G : Geometry F A) (w : Weapon F A) (outfit : Option (Outfit F)) :
    Weapon F A :=
  match outfit with
  | none => w
  | some o =>
    if o.IsWeapon && (decide (o.turretMounts = 0) || w.isTurret) then
      if !w.isTurret then
        { w with outfit := some o, angle := G.Angle (convergence G w.point o.range) }
      else { w with outfit := some o }
    else w

/-- The method `Weapon::Uninstall`. -/
def Weapon.Uninstall (w : Weapon F A) : Weapon F A :=
  { w with outfit := none }

end Slots

/-! ## Members of `Armament` -/

/-- The rack (`Armament`): the slots in order and the stream counters, a map from
outfits to `int` (`none` where the map has no entry). -/
structure Armament (F A : Type) where
  weapons : List (Weapon F A)
  streamReload : Outfit F → Option Int

section Rack

variable {F A : Type} [LinearOrderedField F]

/-- A freshly constructed rack: no slots, no stream counters. -/
def Armament.empty : Armament F A :=
  { weapons := [], streamReload := fun _ => none }

/-- The method `Armament::AddGunPort`. -/
def Armament.AddGunPort (G : Geometry F A) (a : Armament F A) (point : Point F) :
    Armament F A :=
  { a with weapons := a.weapons ++ [Weapon.create G point false] }

/-- The method `Armament::AddTurret`. -/
def Armament.AddTurret (G : Geometry F A) (a : Armament F A) (point : Point F) :
    Armament F A :=
  { a with weapons := a.weapons ++ [Weapon.create G point true] }

/-- The removal loop of `Armament::Add`: uninstall the outfit from the slots that
hold it, in order, until the running count `installed` has come down to `count`. -/
def Armament.removeLoop (outfit : Outfit F) (count : Int) :
    List (Weapon F A) → Int → List (Weapon F A)
  | [], _ => []
  | weapon :: rest, installed =>
    if weapon.GetOutfit = some outfit then
      if installed - 1 = count then weapon.Uninstall :: rest
      else weapon.Uninstall :: Armament.removeLoop outfit count rest (installed - 1)
    else weapon :: Armament.removeLoop outfit count rest installed

/-- The install loop of `Armament::Add`: install the outfit in the empty slots of
the right kind, in order, until the running count `installed` has reached `count`. -/
def Armament.installLoop (G : Geometry F A) (outfit : Outfit F) (isTurret : Bool)
    (count : Int) : List (Weapon F A) → Int → List (Weapon F A)
  | [], _ => []
  | weapon :: rest, installed =>
    if weapon.GetOutfit = none ∧ weapon.IsTurret = isTurret then
      if installed + 1 = count then weapon.Install G (some outfit) :: rest
      else weapon.Install G (some outfit) ::
        Armament.installLoop G outfit isTurret count rest (installed + 1)
    else weapon :: Armament.installLoop G outfit isTurret count rest installed

/-- The method `Armament::Add`; the outfit is `none` for the null pointer. -/
def Armament.Add (G : Geometry F A) (a : Armament F A) (outfit : Option (Outfit F))
    (count : Int) : Armament F A :=
  match outfit with
  | none => a
  | some o =>
    if count = 0 ∨ o.IsWeapon = false then a
    else
      let isTurret := decide (o.turretMounts ≠ 0)
      let weapons :=
        if count < 0 then Armament.removeLoop o count a.weapons 0
        else Armament.installLoop G o isTurret count a.weapons 0
      let streamReload :=
        if o.missileStrength = 0 ∧ o.antiMissile = 0 then
          match a.streamReload o with
          | none => Function.update a.streamReload o (some count)
          | some c =>
            if c + count = 0 then Function.update a.streamReload o none
            else Function.update a.streamReload o (some (c + count))
        else a.streamReload
      { weapons := weapons, streamReload := streamReload }

/-- The accessor `Armament::Get`. -/
def Armament.Get (a : Armament F A) : List (Weapon F A) :=
  a.weapons

/-- The method `Armament::TurretCount`. -/
def Armament.TurretCount (a : Armament F A) : Int :=
  a.weapons.foldl (fun count weapon => count + (if weapon.IsTurret then 1 else 0)) 0

/-- The method `Armament::GunCount`. -/
def Armament.GunCount (a : Armament F A) : Int :=
  (a.weapons.length : Int) - a.TurretCount

/-- The value of `static_cast<unsigned>(index)` for an `int` index. -/
def toUnsigned (index : Int) : Nat :=
  (index % 2 ^ 32).toNat

/-- The method `Armament::Fire`.  The slot is read at the unsigned value of the
index; for a negative index this differs from the code, which then indexes out of
bounds, but a negative index passes the bounds test only on a rack of more than
`2 ^ 31` slots. -/
def Armament.Fire [FloorRing F] (G : Geometry F A) (a : Armament F A) (index : Int) (ship : Ship F A)
    (projectiles : List (Projectile F A)) :
    Armament F A × Ship F A × List (Projectile F A) :=
  match a.weapons[toUnsigned index]? with
  | none => (a, ship, projectiles)
  | some weapon =>
    if !weapon.IsReady then (a, ship, projectiles)
    else
      let it := weapon.GetOutfit.bind fun o => (a.streamReload o).map fun c => (o, c)
      if (match it with
          | some (_, c) => decide (c > 0)
          | none => false) then (a, ship, projectiles)
      else
        match weapon.Fire G ship projectiles with
        | none => (a, ship, projectiles)
        | some (fired, ship, projectiles) =>
          let streamReload :=
            match it with
            | some (o, c) => Function.update a.streamReload o (some (addAssign c o.reload))
            | none => a.streamReload
          ({ weapons := a.weapons.set (toUnsigned index) fired, streamReload := streamReload },
            ship, projectiles)

/-- The method `Armament::FireAntiMissile`; the result is `none` where the slot
method has none. -/
def Armament.FireAntiMissile [FloorRing F] (G : Geometry F A) (a : Armament F A) (index : Int)
    (ship : Ship F A) (projectile : Projectile F A) (effects : List (Effect F A))
    (rand1 rand2 : Nat) :
    Option (Bool × Armament F A × Ship F A × List (Effect F A)) :=
  match a.weapons[toUnsigned index]? with
  | none => some (false, a, ship, effects)
  | some weapon =>
    if !weapon.IsReady then some (false, a, ship, effects)
    else
      match weapon.FireAntiMissile G ship projectile effects rand1 rand2 with
      | none => none
      | some (hit, fired, ship, effects) =>
        some (hit, { a with weapons := a.weapons.set (toUnsigned index) fired }, ship, effects)

/-- The method `Armament::Step`. -/
def Armament.Step (a : Armament F A) (ship : Ship F A) : Armament F A :=
  { weapons := a.weapons.map Weapon.Step,
    streamReload := fun o =>
      (a.streamReload o).map fun c =>
        let count := ship.OutfitCount o
        max (c - count) (1 - count) }

/-- A slot that is empty and compatible with the weapon type `o`: a turret slot for
a weapon with turret mounts, a gun slot otherwise. -/
def Weapon.accepts (s : Weapon F A) (o : Outfit F) : Bool :=
  decide (s.outfit = none) && (s.isTurret == decide (o.turretMounts ≠ 0))

/-- A slot that holds the weapon type `o`. -/
def Weapon.holds (s : Weapon F A) (o : Outfit F) : Bool :=
  decide (s.outfit = some o)

/-- The stream counters after a shot of a slot that holds `o`: the counter of `o`,
when there is one, has the reload attribute added (`it->second += ...`). -/
def streamAfter [FloorRing F] (a : Armament F A) (o : Outfit F) : Outfit F → Option Int :=
  match a.streamReload o with
  | some c => Function.update a.streamReload o (some (addAssign c o.reload))
  | none => a.streamReload

/-- The rack after `n` calls of `Armament::Step` with the same host. -/
def Armament.StepN (a : Armament F A) (ship : Ship F A) (n : Nat) : Armament F A :=
  (fun r => Armament.Step r ship)^[n] a

end Rack

/-! ## Runs of the simulation -/

/-- The state of a run: the rack, its host and the projectile list. -/
abbrev World (F A : Type) : Type :=
  Armament F A × Ship F A × List (Projectile F A)

section Runs

variable {F A : Type} [LinearOrderedField F] [FloorRing F]

/-- A sequence of `Armament::Fire` requests, one per index, in the given order. -/
def fireAll (G : Geometry F A) (s : World F A) (requests : List Int) : World F A :=
  requests.foldl (fun s index => Armament.Fire G s.1 index s.2.1 s.2.2) s

/-- One tick: `Armament::Step` once, then the fire requests of the tick. -/
def tick (G : Geometry F A) (s : World F A) (requests : List Int) : World F A :=
  fireAll G (s.1.Step s.2.1, s.2.1, s.2.2) requests

/-- A run: one tick after the other, each with its own fire requests. -/
def run (G : Geometry F A) (s : World F A) (ticks : List (List Int)) : World F A :=
  ticks.foldl (tick G) s

/-- The number of projectiles of weapon type `o` in a projectile list. -/
def shotsOf (o : Outfit F) (projectiles : List (Projectile F A)) : Nat :=
  projectiles.countP fun p => decide (p.weapon = o)

/-- The invariant of the fire requests of one tick, for a weapon type `o` of which
the host counts `m` copies: `o` has a stream counter; either no projectile of type
`o` was appended since the step and the counter is at least `1 - m`, or exactly one
was appended and the counter is positive. -/
def tickInv (o : Outfit F) (m : Int) (n : Nat) (s : World F A) : Prop :=
  s.2.1.OutfitCount o = m ∧
  ∃ c, s.1.streamReload o = some c ∧
    ((shotsOf o s.2.2 = n ∧ 1 - m ≤ c) ∨ (shotsOf o s.2.2 = n + 1 ∧ 0 < c))

/-- The invariant of a run: the host counts `m` copies of `o` and `o` has a stream
counter. -/
def runInv (o : Outfit F) (m : Int) (s : World F A) : Prop :=
  s.2.1.OutfitCount o = m ∧ ∃ c, s.1.streamReload o = some c

end Runs

/-! ## The intercept solver in binary64 -/

/-- A geometry whose only angle is the zero angle, with the given square root:
rotation is the identity and the unit vector of the angle points up; `asin` and
`atan2` are only exact at zero. -/
def uprightWith {F : Type} [LinearOrderedField F] (sqrt : F → F) : Geometry F Unit :=
  { sqrt := sqrt
    asin := fun _ => 0
    atan2 := fun _ _ => 0
    M_PI := 355 / 113
    Angle := fun _ => ()
    zero := ()
    add := fun _ _ => ()
    Rotate := fun _ p => p
    Unit := fun _ => ⟨0, -1⟩
    pointUnit := fun p => p }

/-- The geometry `uprightWith` over the rationals, with a square root that is exact
on squares of rationals. -/
def upright : Geometry ℚ Unit :=
  uprightWith fun x => (Nat.sqrt x.num.toNat : ℚ) / (Nat.sqrt x.den : ℚ)

/-- A streamable gun (no missile strength, no anti-missile strength) with range 100
and velocity 50, and with the given reload attribute. -/
def blaster (reload : ℚ) : Outfit ℚ :=
  { id := 1, IsWeapon := true, turretMounts := 0, homing := 0, antiMissile := 0,
    missileStrength := 0, reload := reload, velocity := 50, lifetime := 10, range := 100,
    firingForce := 0, HitEffects := [], Ammo := none }

/-- A host at rest at the origin, without a target, that reports the given count
for every outfit. -/
def host (count : Int) : Ship ℚ Unit :=
  { Position := ⟨0, 0⟩, Velocity := ⟨0, 0⟩, Facing := (), GetTargetShip := none,
    OutfitCount := fun _ => count, force := ⟨0, 0⟩, ammo := fun _ => 0 }

/-- A fresh rack with `n` gun slots at offset `(0, 0)`. -/
def gunRack : Nat → Armament ℚ Unit
  | 0 => Armament.empty
  | n + 1 => (gunRack n).AddGunPort upright ⟨0, 0⟩

/-- The rack `gunRack n` after `n` copies of the blaster with the given reload
attribute were installed by one call of `Armament::Add` and `Armament::Step` has
run once, with a host that counts `n` copies. -/
def primed (reload : ℚ) (n : Nat) : Armament ℚ Unit :=
  ((gunRack n).Add upright (some (blaster reload)) n).Step (host n)

/-- An anti-missile turret weapon with the given anti-missile strength and reload
attribute, an engagement radius (velocity) of 50 and one hit effect. -/
def interceptor (strength reload : ℚ) : Outfit ℚ :=
  { id := 2, IsWeapon := true, turretMounts := 1, homing := 0, antiMissile := strength,
    missileStrength := 0, reload := reload, velocity := 50, lifetime := 1, range := 50,
    firingForce := 0, HitEffects := [(7, 1)], Ammo := none }

/-- A turret slot at offset `(0, 0)` that holds the given outfit, its reload counter
at 0. -/
def turretSlot (outfit : Outfit ℚ) : Weapon ℚ Unit :=
  { outfit := some outfit, point := ⟨0, 0⟩, angle := (), reload := 0, isTurret := true }

/-- An incoming projectile at the given position, fired by a weapon with the given
missile strength. -/
def missile (strength : ℚ) (position : Point ℚ) : Projectile ℚ Unit :=
  { ship := host 0, position := position, angle := (),
    weapon :=
      { id := 3, IsWeapon := true, turretMounts := 0, homing := 1, antiMissile := 0,
        missileStrength := strength, reload := 60, velocity := 10, lifetime := 100,
        range := 1000, firingForce := 0, HitEffects := [], Ammo := some 4 } }

/-- The racks that can be reached from a freshly constructed rack by the methods
`AddGunPort`, `AddTurret`, `Add`, `Fire`, `FireAntiMissile` and `Step`, in any order
and with any arguments, where the outfits given to `Add` satisfy `P`. -/
inductive Reachable {F A : Type} [LinearOrderedField F] [FloorRing F] (G : Geometry F A)
    (P : Outfit F → Prop) : Armament F A → Prop where
  | empty : Reachable G P Armament.empty
  | addGunPort (a : Armament F A) (point : Point F) :
      Reachable G P a → Reachable G P (a.AddGunPort G point)
  | addTurret (a : Armament F A) (point : Point F) :
      Reachable G P a → Reachable G P (a.AddTurret G point)
  | add (a : Armament F A) (outfit : Option (Outfit F)) (count : Int) :
      Reachable G P a → (∀ o, outfit = some o → P o) → Reachable G P (a.Add G outfit count)
  | fire (a : Armament F A) (index : Int) (ship : Ship F A)
      (projectiles : List (Projectile F A)) :
      Reachable G P a → Reachable G P (a.Fire G index ship projectiles).1
  | fireAntiMissile (a : Armament F A) (index : Int) (ship : Ship F A)
      (projectile : Projectile F A) (effects : List (Effect F A)) (rand1 rand2 : Nat)
      (r : Bool × Armament F A × Ship F A × List (Effect F A)) :
      Reachable G P a → a.FireAntiMissile G index ship projectile effects rand1 rand2 = some r →
      Reachable G P r.2.1
  | step (a : Armament F A) (ship : Ship F A) :
      Reachable G P a → Reachable G P (a.Step ship)

/-! ## Wormholes (`Wormhole.cpp`) -/

/-- Modelled from the spec: a star system (`System`), identified by its name, the key
under which `GameData::Systems()` keeps it; a pointer to a system is the system. -/
structure System where
  name : String
deriving DecidableEq

/-- Modelled from the spec: a node of a data file (`DataNode`), its tokens and its
children. -/
inductive DataNode where
  | node (tokens : List String) (children : List DataNode)

/-- Modelled from the spec: the number of tokens `node.Size()`. -/
def DataNode.Size : DataNode → Nat
  | DataNode.node tokens _ => tokens.length

/-- Modelled from the spec: the token `node.Token(index)`; the empty string stands
for a token that is not there. -/
def DataNode.Token : DataNode → Nat → String
  | DataNode.node tokens _, index => tokens.getD index ""

/-- Modelled from the spec: the children of a node, in file order. -/
def DataNode.children : DataNode → List DataNode
  | DataNode.node _ children => children

/-- Modelled from the spec: a colour (`Color`), looked up by name in
`GameData::Colors()` or given by three components, kept as their tokens. -/
inductive Color where
  | named (name : String)
  | rgb (r g b : String)
deriving DecidableEq

/-- Modelled from the spec: a planet (`Planet`), as far as a wormhole uses it.
`HasSprite s` says whether the stellar object of the planet in the system `s`
(`s->FindStellar(planet)`) has a sprite. -/
structure Planet where
  name : String
  Description : String
  Systems : List System
  IsValid : Bool
  HasSprite : System → Bool

/-- The link map `unordered_map<const System *, const System *>`: a list of entries
with pairwise different keys.  The order of the list stands for the iteration order
of the map, which the code leaves to the hash table: the model takes the order of
insertion, and a result that depends on the order holds for the code only where the
entry looked for is the only match. -/
abbrev Links : Type :=
  List (System × System)

/-- The lookup `links.find(key)`. -/
def Links.find (links : Links) (key : System) : Option (System × System) :=
  List.find? (fun entry => decide (entry.1 = key)) links

/-- The removal `links.erase(key)`. -/
def Links.erase (links : Links) (key : System) : Links :=
  List.filter (fun entry => decide (entry.1 ≠ key)) links

/-- The assignment `links[key] = value`: the value of an existing entry is replaced,
a new entry is added otherwise. -/
def Links.assign (links : Links) (key value : System) : Links :=
  if (Links.find links key).isSome then
    List.map (fun entry => if entry.1 = key then (key, value) else entry) links
  else links ++ [(key, value)]

/-- The class `Wormhole`, with the initial values of its members. -/
structure Wormhole where
  isDefined : Bool := false
  isAutogenerated : Bool := false
  planet : Option Planet := none
  name : String := "???"
  mappable : Bool := false
  colored : Bool := false
  linkColor : Color := Color.named "map wormhole"
  links : Links := []

/-- One pass of the loop of `Wormhole::Load` over a child node; the second component
of the state is `seenLinkAttribute`.  The trace messages are not modelled. -/
def Wormhole.loadChild (state : Wormhole × Bool) (child : DataNode) : Wormhole × Bool :=
  let add := child.Token 0 == "add"
  let remove := child.Token 0 == "remove"
  if (add || remove) && decide (child.Size < 2) then state
  else
    let key := child.Token (if add || remove then 1 else 0)
    let valueIndex := if add || remove then 2 else 1
    let hasValue := decide (child.Size > valueIndex)
    let value := child.Token (if hasValue then valueIndex else 0)
    if (remove && !hasValue) && key == "link" then
      ({ state.1 with links := [] }, state.2)
    else
      let state : Wormhole × Bool :=
        if key == "link" && !state.2 && !add then ({ state.1 with links := [] }, true)
        else state
      let w := state.1
      if key == "link" && decide (child.Size > valueIndex + 1) then
        let source : System := ⟨child.Token valueIndex⟩
        let target : System := ⟨child.Token (valueIndex + 1)⟩
        if remove then
          match Links.find w.links source with
          | some entry =>
            if entry.2 = target then ({ w with links := Links.erase w.links source }, state.2)
            else state
          | none => state
        else ({ w with links := Links.assign w.links source target }, state.2)
      else if key == "mappable" then ({ w with mappable := !remove }, state.2)
      else if key == "display name" then
        if remove then ({ w with name := "???" }, state.2)
        else if hasValue then ({ w with name := value }, state.2)
        else state
      else if key == "color" && hasValue then
        if child.Size ≥ 3 + valueIndex then
          let color := Color.rgb (child.Token valueIndex) (child.Token (valueIndex + 1))
            (child.Token (valueIndex + 2))
          ({ w with linkColor := color }, state.2)
        else if child.Size ≥ 1 + valueIndex then
          ({ w with linkColor := Color.named (child.Token valueIndex) }, state.2)
        else state
      else state

/-- The method `Wormhole::Load`. -/
def Wormhole.Load (w : Wormhole) (node : DataNode) : Wormhole :=
  if node.Size < 2 then w
  else
    (node.children.foldl Wormhole.loadChild
      ({ w with isDefined := true, isAutogenerated := false }, false)).1

/-- One pass of the loop of `Wormhole::GenerateLinks`, for the index `i` into the
systems of the planet: the system is linked to the next one, the last to the first,
when the wormhole has a sprite there. -/
def Wormhole.linkSystem (planet : Planet) (links : Links) (i : Nat) : Links :=
  let next := if i = planet.Systems.length - 1 then 0 else i + 1
  match planet.Systems[i]?, planet.Systems[next]? with
  | some source, some target =>
    if planet.HasSprite source then Links.assign links source target else links
  | _, _ => links

/-- The method `Wormhole::GenerateLinks`; nothing is generated without a planet,
where the code dereferences a null pointer. -/
def Wormhole.GenerateLinks (w : Wormhole) : Wormhole :=
  match w.planet with
  | none => w
  | some planet =>
    { w with
      links := (List.range planet.Systems.length).foldl (Wormhole.linkSystem planet) [] }

/-- The method `Wormhole::LoadFromPlanet`. -/
def Wormhole.LoadFromPlanet (w : Wormhole) (planet : Planet) : Wormhole :=
  let w := { w with planet := some planet, mappable := !planet.Description.isEmpty }
  { w.GenerateLinks with isAutogenerated := true, isDefined := true }

/-- The method `Wormhole::IsValid`; `valid` is `System::IsValid`. -/
def Wormhole.IsValid (w : Wormhole) (valid : System → Bool) : Bool :=
  if !w.isDefined then false
  else
    match w.planet with
    | none => false
    | some planet =>
      if !planet.IsValid then false
      else w.links.all fun pair => valid pair.1 && valid pair.2

/-- The accessor `Wormhole::GetPlanet`. -/
def Wormhole.GetPlanet (w : Wormhole) : Option Planet :=
  w.planet

/-- The accessor `Wormhole::Name`. -/
def Wormhole.Name (w : Wormhole) : String :=
  w.name

/-- The accessor `Wormhole::IsMappable`. -/
def Wormhole.IsMappable (w : Wormhole) : Bool :=
  w.mappable

/-- The accessor `Wormhole::GetLinkColor`. -/
def Wormhole.GetLinkColor (w : Wormhole) : Color :=
  w.linkColor

/-- The accessor `Wormhole::IsAutogenerated`. -/
def Wormhole.IsAutogenerated (w : Wormhole) : Bool :=
  w.isAutogenerated

/-- The method `Wormhole::WormholeSource`: the key of the first entry, in iteration
order, whose value is `destination`, or `destination` itself without such an entry.
With several links to one destination the code returns whichever the hash table
iterates first; the model returns the one inserted first. -/
def Wormhole.WormholeSource (w : Wormhole) (destination : System) : System :=
  match List.find? (fun val => decide (val.2 = destination)) w.links with
  | none => destination
  | some it => it.1

/-- The method `Wormhole::WormholeDestination`. -/
def Wormhole.WormholeDestination (w : Wormhole) (source : System) : System :=
  match Links.find w.links source with
  | none => source
  | some it => it.2

/-- The accessor `Wormhole::Links`. -/
def Wormhole.Links (w : Wormhole) : Links :=
  w.links

/-- The method `Wormhole::SetPlanet`. -/
def Wormhole.SetPlanet (w : Wormhole) (planet : Planet) : Wormhole :=
  { w with planet := some planet }

/-- A wormhole with the links `A -> B` and `C -> D`. -/
def twoLinks : Wormhole :=
  { links := [(⟨"A"⟩, ⟨"B"⟩), (⟨"C"⟩, ⟨"D"⟩)] }

/-- The definition `wormhole "w"` whose only child is `remove link A B`. -/
def removeLinkAB : DataNode :=
  DataNode.node ["wormhole", "w"] [DataNode.node ["remove", "link", "A", "B"] []]

/-- A planet with a description and a sprite everywhere, in the systems `S0`, `S1`
and `S2`. -/
def threeSystems : Planet :=
  { name := "P", Description := "a wormhole", Systems := [⟨"S0"⟩, ⟨"S1"⟩, ⟨"S2"⟩],
    IsValid := true, HasSprite := fun _ => true }

/-! ## Lemmas -/

section Lemmas

variable {F A : Type}

theorem trunc_intCast [LinearOrderedField F] [FloorRing F] (k : Int) : trunc (k : F) = k := by
  unfold trunc
  split <;> simp

/-- Inside the range of `int` the conversion is the integral part. -/
theorem toInt_of_range [LinearOrderedField F] [FloorRing F] (x : F)
    (h : -2 ^ 31 ≤ trunc x ∧ trunc x < 2 ^ 31) : toInt x = trunc x := by
  unfold toInt
  rw [if_pos h]

/-- The conversion of a number in `[0, 2^31)` is its floor. -/
theorem toInt_of_nonneg [LinearOrderedField F] [FloorRing F] (x : F) (h0 : 0 ≤ x)
    (h1 : x < 2 ^ 31) : toInt x = ⌊x⌋ ∧ 0 ≤ ⌊x⌋ ∧ ⌊x⌋ < 2 ^ 31 := by
  have hf0 : (0 : Int) ≤ ⌊x⌋ := Int.floor_nonneg.mpr h0
  have hf1 : ⌊x⌋ < 2 ^ 31 := by
    rw [Int.floor_lt]
    exact_mod_cast h1
  have ht : trunc x = ⌊x⌋ := by
    unfold trunc
    rw [if_pos h0]
  refine ⟨?_, hf0, hf1⟩
  rw [toInt_of_range x (by rw [ht]; exact ⟨by omega, hf1⟩), ht]

theorem toInt_intCast [LinearOrderedField F] [FloorRing F] (k : Int)
    (h0 : -2 ^ 31 ≤ k) (h1 : k < 2 ^ 31) : toInt (k : F) = k := by
  rw [toInt_of_range _ (by rw [trunc_intCast]; exact ⟨h0, h1⟩), trunc_intCast]

theorem addAssign_intCast [LinearOrderedField F] [FloorRing F] (n k : Int)
    (h0 : -2 ^ 31 ≤ n + k) (h1 : n + k < 2 ^ 31) : addAssign n (k : F) = n + k := by
  unfold addAssign
  rw [← Int.cast_add, toInt_intCast _ h0 h1]

theorem addAssign_natCast [LinearOrderedField F] [FloorRing F] (n : Int) (k : Nat)
    (h0 : -2 ^ 31 ≤ n + k) (h1 : n + k < 2 ^ 31) : addAssign n (k : F) = n + k := by
  have := addAssign_intCast (F := F) n (k : Int) h0 h1
  simpa using this

/-- A sum in `[0, 2^31)` is converted to its floor, which is not negative. -/
theorem addAssign_of_nonneg [LinearOrderedField F] [FloorRing F] (n : Int) (x : F)
    (h0 : 0 ≤ (n : F) + x) (h1 : (n : F) + x < 2 ^ 31) :
    addAssign n x = ⌊(n : F) + x⌋ ∧ 0 ≤ addAssign n x ∧ addAssign n x < 2 ^ 31 := by
  unfold addAssign
  obtain ⟨h, hf0, hf1⟩ := toInt_of_nonneg _ h0 h1
  rw [h]
  exact ⟨rfl, hf0, hf1⟩

/-- A sum that reaches one, below `2^31`, is still at least one after the conversion
to `int`. -/
theorem one_le_addAssign [LinearOrderedField F] [FloorRing F] (n : Int) (x : F)
    (h : 1 ≤ (n : F) + x) (h1 : (n : F) + x < 2 ^ 31) : 1 ≤ addAssign n x := by
  have h0 : (0 : F) ≤ (n : F) + x := le_trans zero_le_one h
  rw [(addAssign_of_nonneg n x h0 h1).1]
  exact Int.le_floor.mpr (by simpa using h)

theorem ExpendAmmo_OutfitCount (ship : Ship F A) (o : Outfit F) :
    (ship.ExpendAmmo o).OutfitCount = ship.OutfitCount := by
  unfold Ship.ExpendAmmo; split <;> rfl

theorem Weapon.Fire_some [LinearOrderedField F] [FloorRing F] (G : Geometry F A)
    (w : Weapon F A) (o : Outfit F) (ship : Ship F A) (ps : List (Projectile F A))
    (ho : w.outfit = some o) :
    ∃ ship1 p, w.Fire G ship ps
        = some ({ w with reload := addAssign w.reload o.reload }, ship1, ps ++ [p])
      ∧ p.weapon = o ∧ ship1.OutfitCount = ship.OutfitCount := by
  unfold Weapon.Fire
  rw [ho]
  refine ⟨_, _, rfl, rfl, ?_⟩
  rw [ExpendAmmo_OutfitCount]
  split <;> rfl

theorem Weapon.IsReady_iff (w : Weapon F A) :
    w.IsReady = true ↔ (∃ o, w.outfit = some o) ∧ w.reload ≤ 0 := by
  unfold Weapon.IsReady
  cases w.outfit <;> simp

theorem Armament.Fire_of_none [LinearOrderedField F] [FloorRing F] (G : Geometry F A)
    (a : Armament F A) (index : Int) (ship : Ship F A) (ps : List (Projectile F A))
    (h : a.weapons[toUnsigned index]? = none) :
    a.Fire G index ship ps = (a, ship, ps) := by
  unfold Armament.Fire
  rw [h]

theorem Armament.Fire_of_notReady [LinearOrderedField F] [FloorRing F] (G : Geometry F A)
    (a : Armament F A) (index : Int) (ship : Ship F A) (ps : List (Projectile F A))
    (w : Weapon F A) (h : a.weapons[toUnsigned index]? = some w) (hr : w.IsReady = false) :
    a.Fire G index ship ps = (a, ship, ps) := by
  unfold Armament.Fire
  rw [h]
  simp [hr]

theorem Armament.Fire_of_blocked [LinearOrderedField F] [FloorRing F] (G : Geometry F A)
    (a : Armament F A) (index : Int) (ship : Ship F A) (ps : List (Projectile F A))
    (w : Weapon F A) (o : Outfit F) (c : Int) (h : a.weapons[toUnsigned index]? = some w)
    (ho : w.outfit = some o) (hc : a.streamReload o = some c) (hpos : 0 < c) :
    a.Fire G index ship ps = (a, ship, ps) := by
  unfold Armament.Fire
  rw [h]
  simp only [Weapon.GetOutfit, ho, Option.some_bind, hc, Option.map_some']
  simp [hpos]

theorem Armament.Fire_of_ready [LinearOrderedField F] [FloorRing F] (G : Geometry F A)
    (a : Armament F A) (index : Int) (ship : Ship F A) (ps : List (Projectile F A))
    (w : Weapon F A) (o : Outfit F) (h : a.weapons[toUnsigned index]? = some w)
    (hr : w.IsReady = true) (ho : w.outfit = some o)
    (hc : ∀ c, a.streamReload o = some c → c ≤ 0) :
    ∃ ship1 p, a.Fire G index ship ps
        = ({ weapons := a.weapons.set (toUnsigned index)
              { w with reload := addAssign w.reload o.reload },
             streamReload := streamAfter a o }, ship1, ps ++ [p])
      ∧ p.weapon = o ∧ ship1.OutfitCount = ship.OutfitCount := by
  obtain ⟨ship1, p, hf, hp, hs⟩ := Weapon.Fire_some G w o ship ps ho
  refine ⟨ship1, p, ?_, hp, hs⟩
  unfold Armament.Fire streamAfter
  rw [h]
  simp only [Weapon.GetOutfit, ho, Option.some_bind, hr, hf]
  cases hsr : a.streamReload o with
  | none => simp
  | some c =>
    have := hc c hsr
    simp [not_lt.mpr this]

theorem Armament.Fire_cases [LinearOrderedField F] [FloorRing F] (G : Geometry F A)
    (a : Armament F A) (index : Int) (ship : Ship F A) (ps : List (Projectile F A)) :
    a.Fire G index ship ps = (a, ship, ps) ∨
    ∃ w o ship1 p, a.weapons[toUnsigned index]? = some w ∧ w.outfit = some o ∧ w.reload ≤ 0
      ∧ (∀ c, a.streamReload o = some c → c ≤ 0)
      ∧ a.Fire G index ship ps
        = ({ weapons := a.weapons.set (toUnsigned index)
              { w with reload := addAssign w.reload o.reload },
             streamReload := streamAfter a o }, ship1, ps ++ [p])
      ∧ p.weapon = o ∧ ship1.OutfitCount = ship.OutfitCount := by
  cases h : a.weapons[toUnsigned index]? with
  | none => exact Or.inl (Armament.Fire_of_none G a index ship ps h)
  | some w =>
    cases hr : w.IsReady with
    | false => exact Or.inl (Armament.Fire_of_notReady G a index ship ps w h hr)
    | true =>
      obtain ⟨⟨o, ho⟩, hre⟩ := (Weapon.IsReady_iff w).mp hr
      by_cases hc : ∀ c, a.streamReload o = some c → c ≤ 0
      · obtain ⟨ship1, p, hf, hp, hs⟩ := Armament.Fire_of_ready G a index ship ps w o h hr ho hc
        exact Or.inr ⟨w, o, ship1, p, rfl, ho, hre, hc, hf, hp, hs⟩
      · push_neg at hc
        obtain ⟨c, hc1, hc2⟩ := hc
        exact Or.inl (Armament.Fire_of_blocked G a index ship ps w o c h ho hc1 hc2)


theorem toUnsigned_of_nonneg (index : Int) (h0 : 0 ≤ index) (h1 : index < 2 ^ 31) :
    toUnsigned index = index.toNat := by
  unfold toUnsigned
  rw [Int.emod_eq_of_lt h0 (by omega)]

theorem toUnsigned_of_neg (index : Int) (h0 : -2 ^ 31 ≤ index) (h1 : index < 0) :
    2 ^ 31 ≤ toUnsigned index := by
  unfold toUnsigned
  have h : index % 2 ^ 32 = index + 2 ^ 32 := by
    rw [← Int.add_emod_self]
    exact Int.emod_eq_of_lt (by omega) (by omega)
  rw [h]
  omega

theorem Weapon.Step_outfit (w : Weapon F A) : w.Step.outfit = w.outfit := by
  unfold Weapon.Step; split <;> rfl

theorem Weapon.iterate_Step_outfit (n : Nat) (w : Weapon F A) :
    (Weapon.Step^[n] w).outfit = w.outfit := by
  induction n generalizing w with
  | zero => rfl
  | succ n ih => rw [Function.iterate_succ_apply, ih, Weapon.Step_outfit]

theorem Weapon.Step_reload (w : Weapon F A) :
    w.Step.reload = if w.reload = 0 then 0 else w.reload - 1 := by
  unfold Weapon.Step; split <;> simp_all

theorem Weapon.iterate_Step_reload_le (n : Nat) (w : Weapon F A) (h : w.reload ≤ n) :
    (Weapon.Step^[n] w).reload ≤ 0 := by
  induction n generalizing w with
  | zero => simpa using h
  | succ n ih =>
    rw [Function.iterate_succ_apply]
    apply ih
    rw [Weapon.Step_reload]
    split <;> push_cast at h ⊢ <;> omega

theorem Weapon.iterate_Step_reload_pos (n : Nat) (w : Weapon F A) (h : (n : Int) < w.reload) :
    0 < (Weapon.Step^[n] w).reload := by
  induction n generalizing w with
  | zero => simpa using h
  | succ n ih =>
    rw [Function.iterate_succ_apply]
    apply ih
    rw [Weapon.Step_reload]
    split <;> push_cast at h ⊢ <;> omega

theorem Weapon.iterate_Step_notReady (n : Nat) (w : Weapon F A) (h : (n : Int) < w.reload) :
    (Weapon.Step^[n] w).IsReady = false := by
  have := Weapon.iterate_Step_reload_pos n w h
  unfold Weapon.IsReady
  simp [not_le.mpr this]

theorem Weapon.iterate_Step_ready (n : Nat) (w : Weapon F A) (o : Outfit F)
    (ho : w.outfit = some o) (h : w.reload ≤ n) : (Weapon.Step^[n] w).IsReady = true := by
  have := Weapon.iterate_Step_reload_le n w h
  unfold Weapon.IsReady
  simp [this, Weapon.iterate_Step_outfit, ho]

theorem Armament.FireAntiMissile_of_none [LinearOrderedField F] [FloorRing F]
    (G : Geometry F A) (a : Armament F A) (index : Int) (ship : Ship F A)
    (projectile : Projectile F A) (effects : List (Effect F A)) (rand1 rand2 : Nat)
    (h : a.weapons[toUnsigned index]? = none) :
    a.FireAntiMissile G index ship projectile effects rand1 rand2
      = some (false, a, ship, effects) := by
  unfold Armament.FireAntiMissile
  rw [h]

theorem Armament.FireAntiMissile_of_notReady [LinearOrderedField F] [FloorRing F]
    (G : Geometry F A) (a : Armament F A) (index : Int) (ship : Ship F A)
    (projectile : Projectile F A) (effects : List (Effect F A)) (rand1 rand2 : Nat)
    (w : Weapon F A) (h : a.weapons[toUnsigned index]? = some w) (hr : w.IsReady = false) :
    a.FireAntiMissile G index ship projectile effects rand1 rand2
      = some (false, a, ship, effects) := by
  unfold Armament.FireAntiMissile
  rw [h]
  simp [hr]

/-- An `int` index outside the slots reads no slot, on a rack of at most `2 ^ 31`
slots. -/
theorem slot_none_of_out_of_bounds (a : Armament F A) (index : Int)
    (hint : -2 ^ 31 ≤ index ∧ index < 2 ^ 31) (hsize : a.weapons.length ≤ 2 ^ 31)
    (h : index < 0 ∨ (a.weapons.length : Int) ≤ index) :
    a.weapons[toUnsigned index]? = none := by
  rw [List.getElem?_eq_none_iff]
  by_cases hneg : index < 0
  · have := toUnsigned_of_neg index hint.1 hneg
    omega
  · rw [toUnsigned_of_nonneg index (by omega) hint.2]
    omega

theorem Armament.StepN_succ (a : Armament F A) (ship : Ship F A) (k : Nat) :
    a.StepN ship (k + 1) = (a.Step ship).StepN ship k := by
  unfold Armament.StepN
  rw [Function.iterate_succ_apply]

theorem Armament.StepN_weapons (a : Armament F A) (ship : Ship F A) (k : Nat) :
    (a.StepN ship k).weapons = a.weapons.map (Weapon.Step^[k]) := by
  induction k generalizing a with
  | zero => simp [Armament.StepN]
  | succ k ih =>
    rw [Armament.StepN_succ, ih]
    simp [Armament.Step, Function.iterate_succ]

theorem Armament.StepN_stream (a : Armament F A) (ship : Ship F A) (k : Nat) (o : Outfit F) :
    (a.StepN ship k).streamReload o
      = (a.streamReload o).map
          ((fun c => max (c - ship.OutfitCount o) (1 - ship.OutfitCount o))^[k]) := by
  induction k generalizing a with
  | zero => simp [Armament.StepN]
  | succ k ih =>
    rw [Armament.StepN_succ, ih]
    simp [Armament.Step, Function.iterate_succ]

theorem Armament.StepN_slot (a : Armament F A) (ship : Ship F A) (k i : Nat) (w : Weapon F A)
    (h : a.weapons[i]? = some w) : (a.StepN ship k).weapons[i]? = some (Weapon.Step^[k] w) := by
  rw [Armament.StepN_weapons, List.getElem?_map, h]
  rfl

/-- With one copy counted, a positive stream counter `c` is still positive after
fewer than `c` steps. -/
theorem stream_iterate_pos (k : Nat) (c : Int) (h : (k : Int) < c) :
    0 < (fun c : Int => max (c - 1) (1 - 1))^[k] c := by
  induction k generalizing c with
  | zero => simpa using h
  | succ k ih =>
    rw [Function.iterate_succ_apply]
    apply ih
    push_cast at h
    omega

/-- With one copy counted, a stream counter `0 <= c <= k` is zero after `k` steps. -/
theorem stream_iterate_zero (k : Nat) (c : Int) (h0 : 0 ≤ c) (h : c ≤ k) :
    (fun c : Int => max (c - 1) (1 - 1))^[k] c = 0 := by
  induction k generalizing c with
  | zero =>
    simp only [Function.iterate_zero, id]
    push_cast at h
    omega
  | succ k ih =>
    rw [Function.iterate_succ_apply]
    apply ih
    · omega
    · push_cast at h
      omega

/-- One cycle of a single copy: a ready slot whose weapon has the integer reload
attribute `r`, with a stream counter of 0 (or without one, the reload counter being
0), fires; with a host that counts one copy it then stays blocked for fewer than `r`
steps and fires again after `r` steps. -/
theorem fire_cycle [LinearOrderedField F] [FloorRing F] (G : Geometry F A)
    (a : Armament F A) (index : Int) (w : Weapon F A) (o : Outfit F) (r : Nat)
    (hw : a.weapons[toUnsigned index]? = some w) (ho : w.outfit = some o)
    (hr : o.reload = (r : F)) (hr2 : r < 2 ^ 31) (hrl : w.reload ≤ 0)
    (hlow : -2 ^ 31 ≤ w.reload)
    (hs : a.streamReload o = some 0 ∨ (a.streamReload o = none ∧ w.reload = 0))
    (ship : Ship F A) (ps : List (Projectile F A)) :
    ∃ a1 ship1 p, a.Fire G index ship ps = (a1, ship1, ps ++ [p]) ∧ p.weapon = o ∧
      a1.weapons[toUnsigned index]? = some { w with reload := w.reload + r } ∧
      ∀ (host : Ship F A) (sink : List (Projectile F A)), host.OutfitCount o = 1 →
        (∀ k, k < r →
          (a1.StepN host k).Fire G index host sink = (a1.StepN host k, host, sink)) ∧
        ∃ a2 host2 q,
          (a1.StepN host r).Fire G index host sink = (a2, host2, sink ++ [q]) ∧ q.weapon = o := by
  have hready : w.IsReady = true := (Weapon.IsReady_iff w).mpr ⟨⟨o, ho⟩, hrl⟩
  have hc : ∀ c, a.streamReload o = some c → c ≤ 0 := by
    intro c hc
    rcases hs with hs | ⟨hs, -⟩ <;> rw [hs] at hc <;> simp at hc
    omega
  obtain ⟨ship1, p, hf, hp, -⟩ := Armament.Fire_of_ready G a index ship ps w o hw hready ho hc
  have hlt : toUnsigned index < a.weapons.length := (List.getElem?_eq_some_iff.mp hw).1
  have hadd : addAssign w.reload o.reload = w.reload + r := by
    rw [hr]
    exact addAssign_natCast _ _ (by omega) (by omega)
  have hadd0 : addAssign 0 o.reload = 0 + r := by
    rw [hr]
    exact addAssign_natCast _ _ (by omega) (by omega)
  refine ⟨_, ship1, p, hf, hp, ?_, ?_⟩
  · simp [hlt, hadd]
  intro host sink hcount
  have hslot : ∀ k, (Armament.StepN
      { weapons := a.weapons.set (toUnsigned index)
          { w with reload := addAssign w.reload o.reload },
        streamReload := streamAfter a o } host k).weapons[toUnsigned index]?
        = some (Weapon.Step^[k] { w with reload := w.reload + r }) := by
    intro k
    apply Armament.StepN_slot
    simp [hlt, hadd]
  have hout : ∀ k, (Weapon.Step^[k] { w with reload := w.reload + r }).outfit = some o := by
    intro k
    rw [Weapon.iterate_Step_outfit]
    exact ho
  have hstr : ∀ k, (Armament.StepN
      { weapons := a.weapons.set (toUnsigned index)
          { w with reload := addAssign w.reload o.reload },
        streamReload := streamAfter a o } host k).streamReload o
        = (a.streamReload o).map
            (fun c => (fun c : Int => max (c - 1) (1 - 1))^[k] (c + r)) := by
    intro k
    rw [Armament.StepN_stream, hcount]
    show Option.map _ (streamAfter a o o) = _
    unfold streamAfter
    rcases hs with hs | ⟨hs, -⟩ <;> simp [hs, hadd0]
  rcases hs with hs | ⟨hs, hw0⟩
  · constructor
    · intro k hk
      refine Armament.Fire_of_blocked G _ index host sink _ o _ (hslot k) (hout k)
        ((hstr k).trans (by rw [hs]; rfl)) ?_
      apply stream_iterate_pos
      omega
    · have hrdy : (Weapon.Step^[r] { w with reload := w.reload + r }).IsReady = true := by
        refine Weapon.iterate_Step_ready r _ o ?_ ?_
        · exact ho
        · show w.reload + r ≤ r
          omega
      obtain ⟨host2, q, hf2, hq, -⟩ :=
        Armament.Fire_of_ready G _ index host sink _ o (hslot r) hrdy (hout r) (by
          intro c hcr
          rw [hstr r, hs] at hcr
          simp only [Option.map_some', Option.some.injEq] at hcr
          rw [← hcr, stream_iterate_zero r _ (by omega) (by omega)])
      exact ⟨_, host2, q, hf2, hq⟩
  · constructor
    · intro k hk
      refine Armament.Fire_of_notReady G _ index host sink _ (hslot k) ?_
      apply Weapon.iterate_Step_notReady
      show (k : Int) < w.reload + r
      omega
    · have hrdy : (Weapon.Step^[r] { w with reload := w.reload + r }).IsReady = true := by
        refine Weapon.iterate_Step_ready r _ o ?_ ?_
        · exact ho
        · show w.reload + r ≤ r
          omega
      obtain ⟨host2, q, hf2, hq, -⟩ :=
        Armament.Fire_of_ready G _ index host sink _ o (hslot r) hrdy (hout r) (by
          intro c hcr
          rw [hstr r, hs] at hcr
          simp at hcr)
      exact ⟨_, host2, q, hf2, hq⟩

theorem shotsOf_append_same [LinearOrderedField F] (o : Outfit F) (ps : List (Projectile F A))
    (p : Projectile F A) (h : p.weapon = o) : shotsOf o (ps ++ [p]) = shotsOf o ps + 1 := by
  simp [shotsOf, List.countP_append, h]

theorem shotsOf_append_other [LinearOrderedField F] (o : Outfit F) (ps : List (Projectile F A))
    (p : Projectile F A) (h : p.weapon ≠ o) : shotsOf o (ps ++ [p]) = shotsOf o ps := by
  simp [shotsOf, List.countP_append, h]

theorem tickInv_Fire [LinearOrderedField F] [FloorRing F] (G : Geometry F A) (o : Outfit F)
    (m : Int) (n : Nat) (hr : (m : F) ≤ o.reload) (hr2 : o.reload < 2 ^ 31) (s : World F A)
    (index : Int)
    (h : tickInv o m n s) : tickInv o m n (Armament.Fire G s.1 index s.2.1 s.2.2) := by
  obtain ⟨hcount, c, hc, hcase⟩ := h
  rcases Armament.Fire_cases G s.1 index s.2.1 s.2.2 with hno | hyes
  · rw [hno]
    exact ⟨hcount, c, hc, hcase⟩
  · obtain ⟨w, o1, ship1, p, -, -, -, hle, hf, hp, hoc⟩ := hyes
    rw [hf]
    by_cases ho : o1 = o
    · subst ho
      have hc0 := hle c hc
      rcases hcase with ⟨hn, hlow⟩ | ⟨-, hpos⟩
      · refine ⟨by simpa [hoc] using hcount, addAssign c o1.reload, ?_, Or.inr ⟨?_, ?_⟩⟩
        · simp [streamAfter, hc]
        · simp only [shotsOf_append_same o1 s.2.2 p hp, hn]
        · have h1 : (1 : F) ≤ (c : F) + o1.reload := by
            have h2 : ((1 - m : Int) : F) ≤ (c : F) := by exact_mod_cast hlow
            push_cast at h2
            linarith
          have h2 : (c : F) + o1.reload < 2 ^ 31 := by
            have h3 : (c : F) ≤ 0 := by exact_mod_cast hc0
            linarith
          have := one_le_addAssign c o1.reload h1 h2
          omega
      · omega
    · refine ⟨by simpa [hoc] using hcount, c, ?_, ?_⟩
      · show streamAfter s.1 o1 o = some c
        unfold streamAfter
        cases hso : s.1.streamReload o1 <;> simp [Function.update, Ne.symm ho, hc]
      · have hpo : p.weapon ≠ o := by rw [hp]; exact ho
        simpa only [shotsOf_append_other o s.2.2 p hpo] using hcase

theorem tickInv_fireAll [LinearOrderedField F] [FloorRing F] (G : Geometry F A) (o : Outfit F)
    (m : Int) (n : Nat) (hr : (m : F) ≤ o.reload) (hr2 : o.reload < 2 ^ 31)
    (requests : List Int) (s : World F A)
    (h : tickInv o m n s) : tickInv o m n (fireAll G s requests) := by
  induction requests generalizing s with
  | nil => exact h
  | cons index rest ih => exact ih _ (tickInv_Fire G o m n hr hr2 s index h)

theorem tickInv_Step [LinearOrderedField F] (o : Outfit F) (m : Int) (s : World F A)
    (h : runInv o m s) : tickInv o m (shotsOf o s.2.2) (s.1.Step s.2.1, s.2.1, s.2.2) := by
  obtain ⟨hcount, c, hc⟩ := h
  refine ⟨hcount, max (c - m) (1 - m), ?_, Or.inl ⟨rfl, le_max_right _ _⟩⟩
  simp [Armament.Step, hc, hcount]

/-- In one tick at most one projectile of type `o` is appended, when the reload
attribute of `o` is at least the number `m` of copies the host counts and below
`2^31`. -/
theorem tick_shots [LinearOrderedField F] [FloorRing F] (G : Geometry F A) (o : Outfit F)
    (m : Int) (hr : (m : F) ≤ o.reload) (hr2 : o.reload < 2 ^ 31) (requests : List Int)
    (s : World F A) (h : runInv o m s) :
    runInv o m (tick G s requests) ∧
      shotsOf o (tick G s requests).2.2 ≤ shotsOf o s.2.2 + 1 := by
  have := tickInv_fireAll G o m _ hr hr2 requests _ (tickInv_Step o m s h)
  obtain ⟨hcount, c, hc, hcase⟩ := this
  refine ⟨⟨hcount, c, hc⟩, ?_⟩
  unfold tick
  rcases hcase with ⟨hn, -⟩ | ⟨hn, -⟩ <;> omega

theorem runInv_run [LinearOrderedField F] [FloorRing F] (G : Geometry F A) (o : Outfit F)
    (m : Int) (hr : (m : F) ≤ o.reload) (hr2 : o.reload < 2 ^ 31) (ticks : List (List Int))
    (s : World F A) (h : runInv o m s) : runInv o m (run G s ticks) := by
  induction ticks generalizing s with
  | nil => exact h
  | cons requests rest ih => exact ih _ (tick_shots G o m hr hr2 requests s h).1

theorem Install_of_accepts [LinearOrderedField F] (G : Geometry F A) (s : Weapon F A)
    (o : Outfit F) (hweapon : o.IsWeapon = true) (h : s.accepts o = true) :
    (s.Install G (some o)).outfit = some o ∧ (s.Install G (some o)).point = s.point ∧
      (s.Install G (some o)).reload = s.reload ∧
      (s.Install G (some o)).isTurret = s.isTurret := by
  unfold Weapon.accepts at h
  simp only [Bool.and_eq_true, decide_eq_true_eq, beq_iff_eq] at h
  unfold Weapon.Install
  by_cases ht : o.turretMounts = 0
  · have hs : s.isTurret = false := by rw [h.2]; simp [ht]
    simp [hweapon, ht, hs]
  · have hs : s.isTurret = true := by rw [h.2]; simp [ht]
    simp [hweapon, ht, hs]

theorem installLoop_length [LinearOrderedField F] (G : Geometry F A) (o : Outfit F)
    (isTurret : Bool) (count : Int) (ws : List (Weapon F A)) (n : Int) :
    (Armament.installLoop G o isTurret count ws n).length = ws.length := by
  induction ws generalizing n with
  | nil => rfl
  | cons w ws ih =>
    unfold Armament.installLoop
    split_ifs <;> simp [ih]

/-- The install loop, slot by slot: a slot receives the outfit exactly when it is
empty and of the right kind and fewer than `count - n` such slots precede it. -/
theorem installLoop_getElem [LinearOrderedField F] (G : Geometry F A) (o : Outfit F)
    (count : Int) (ws : List (Weapon F A)) (n : Int) (hn : n < count) (j : Nat) :
    (Armament.installLoop G o (decide (o.turretMounts ≠ 0)) count ws n)[j]?
      = (ws[j]?).map fun s =>
          if s.accepts o = true ∧ n + ((ws.take j).countP (fun t => t.accepts o) : Int) < count
          then s.Install G (some o) else s := by
  induction ws generalizing n j with
  | nil => simp [Armament.installLoop]
  | cons w ws ih =>
    unfold Armament.installLoop
    by_cases hacc : w.accepts o = true
    · have hcond : w.GetOutfit = none ∧ w.IsTurret = decide (o.turretMounts ≠ 0) := by
        unfold Weapon.accepts at hacc
        simpa [Weapon.GetOutfit, Weapon.IsTurret] using hacc
      rw [if_pos hcond]
      have hcnt : ∀ l : List (Weapon F A), List.countP (fun t => t.accepts o) (w :: l)
          = List.countP (fun t => t.accepts o) l + 1 :=
        fun l => List.countP_cons_of_pos _ l hacc
      cases j with
      | zero =>
        split_ifs <;> simp [hacc, hn]
      | succ j =>
        split_ifs with hlast
        · simp only [List.getElem?_cons_succ, List.take_succ_cons, hcnt]
          cases hj : ws[j]? with
          | none => rfl
          | some s =>
            simp only [Option.map_some', Option.some.injEq]
            rw [if_neg]
            push_cast
            omega
        · simp only [List.getElem?_cons_succ, List.take_succ_cons, hcnt]
          rw [ih (n + 1) (by omega) j]
          congr 1
          funext s
          push_cast
          have : n + 1 + ((List.countP (fun t => t.accepts o) (List.take j ws) : Nat) : Int)
              = n + (((List.countP (fun t => t.accepts o) (List.take j ws) : Nat) : Int) + 1) := by
            ring
          rw [this]
    · have hcond : ¬ (w.GetOutfit = none ∧ w.IsTurret = decide (o.turretMounts ≠ 0)) := by
        unfold Weapon.accepts at hacc
        simpa [Weapon.GetOutfit, Weapon.IsTurret] using hacc
      rw [if_neg hcond]
      have hcnt : ∀ l : List (Weapon F A), List.countP (fun t => t.accepts o) (w :: l)
          = List.countP (fun t => t.accepts o) l :=
        fun l => List.countP_cons_of_neg _ l hacc
      cases j with
      | zero => simp [hacc]
      | succ j =>
        simp only [List.getElem?_cons_succ, List.take_succ_cons, hcnt]
        exact ih n hn j

theorem not_holds_of_accepts [LinearOrderedField F] (s : Weapon F A) (o : Outfit F)
    (h : s.accepts o = true) : s.holds o = false := by
  unfold Weapon.accepts at h
  unfold Weapon.holds
  simp only [Bool.and_eq_true, decide_eq_true_eq] at h
  simp [h.1]

/-- The install loop adds `min (count - n) k` copies, `k` the number of empty slots
of the right kind. -/
theorem installLoop_count [LinearOrderedField F] (G : Geometry F A) (o : Outfit F)
    (hweapon : o.IsWeapon = true) (count : Int) (ws : List (Weapon F A)) (n : Int)
    (hn : n < count) :
    (((Armament.installLoop G o (decide (o.turretMounts ≠ 0)) count ws n).countP
        (fun t => t.holds o) : Nat) : Int)
      = (ws.countP (fun t => t.holds o) : Nat)
        + min (count - n) (ws.countP (fun t => t.accepts o) : Nat) := by
  induction ws generalizing n with
  | nil => simp [Armament.installLoop]; omega
  | cons w ws ih =>
    unfold Armament.installLoop
    by_cases hacc : w.accepts o = true
    · have hcond : w.GetOutfit = none ∧ w.IsTurret = decide (o.turretMounts ≠ 0) := by
        unfold Weapon.accepts at hacc
        simpa [Weapon.GetOutfit, Weapon.IsTurret] using hacc
      have hnot := not_holds_of_accepts w o hacc
      have hinst : (w.Install G (some o)).holds o = true := by
        unfold Weapon.holds
        simp [(Install_of_accepts G w o hweapon hacc).1]
      rw [if_pos hcond]
      split_ifs with hlast
      · simp only [List.countP_cons, hinst, hnot, hacc, if_true]
        push_cast
        omega
      · simp only [List.countP_cons, hinst, hnot, hacc, if_true]
        push_cast
        rw [ih (n + 1) (by omega)]
        omega
    · have hcond : ¬ (w.GetOutfit = none ∧ w.IsTurret = decide (o.turretMounts ≠ 0)) := by
        unfold Weapon.accepts at hacc
        simpa [Weapon.GetOutfit, Weapon.IsTurret] using hacc
      rw [if_neg hcond]
      simp only [List.countP_cons, hacc]
      push_cast
      rw [ih n hn]
      omega

theorem removeLoop_length [LinearOrderedField F] (o : Outfit F) (count : Int)
    (ws : List (Weapon F A)) (n : Int) :
    (Armament.removeLoop o count ws n).length = ws.length := by
  induction ws generalizing n with
  | nil => rfl
  | cons w ws ih =>
    unfold Armament.removeLoop
    split_ifs <;> simp [ih]

/-- The removal loop, slot by slot: a slot is emptied exactly when it holds the
outfit and fewer than `n - count` slots holding it precede. -/
theorem removeLoop_getElem [LinearOrderedField F] (o : Outfit F) (count : Int)
    (ws : List (Weapon F A)) (n : Int) (hn : count < n) (j : Nat) :
    (Armament.removeLoop o count ws n)[j]?
      = (ws[j]?).map fun s =>
          if s.holds o = true ∧ ((ws.take j).countP (fun t => t.holds o) : Int) < n - count
          then s.Uninstall else s := by
  induction ws generalizing n j with
  | nil => simp [Armament.removeLoop]
  | cons w ws ih =>
    unfold Armament.removeLoop
    by_cases hh : w.holds o = true
    · have hcond : w.GetOutfit = some o := by
        unfold Weapon.holds at hh
        simpa [Weapon.GetOutfit] using hh
      have hcnt : ∀ l : List (Weapon F A), List.countP (fun t => t.holds o) (w :: l)
          = List.countP (fun t => t.holds o) l + 1 :=
        fun l => List.countP_cons_of_pos _ l hh
      rw [if_pos hcond]
      cases j with
      | zero =>
        split_ifs <;> simp [hh, hn]
      | succ j =>
        split_ifs with hlast
        · simp only [List.getElem?_cons_succ, List.take_succ_cons, hcnt]
          cases hj : ws[j]? with
          | none => rfl
          | some s =>
            simp only [Option.map_some', Option.some.injEq]
            rw [if_neg]
            push_cast
            omega
        · simp only [List.getElem?_cons_succ, List.take_succ_cons, hcnt]
          rw [ih (n - 1) (by omega) j]
          congr 1
          funext s
          push_cast
          have : ((List.countP (fun t => t.holds o) (List.take j ws) : Nat) : Int) < n - 1 - count
              ↔ ((List.countP (fun t => t.holds o) (List.take j ws) : Nat) : Int) + 1 < n - count := by
            omega
          simp only [this]
    · have hcond : ¬ w.GetOutfit = some o := by
        unfold Weapon.holds at hh
        simpa [Weapon.GetOutfit] using hh
      have hcnt : ∀ l : List (Weapon F A), List.countP (fun t => t.holds o) (w :: l)
          = List.countP (fun t => t.holds o) l :=
        fun l => List.countP_cons_of_neg _ l hh
      rw [if_neg hcond]
      cases j with
      | zero => simp [hh]
      | succ j =>
        simp only [List.getElem?_cons_succ, List.take_succ_cons, hcnt]
        exact ih n hn j

/-- The removal loop takes away `min (n - count) m` copies, `m` the number of slots
that hold the outfit. -/
theorem removeLoop_count [LinearOrderedField F] (o : Outfit F) (count : Int)
    (ws : List (Weapon F A)) (n : Int) (hn : count < n) :
    (((Armament.removeLoop o count ws n).countP (fun t => t.holds o) : Nat) : Int)
      = (ws.countP (fun t => t.holds o) : Nat)
        - min (n - count) (ws.countP (fun t => t.holds o) : Nat) := by
  induction ws generalizing n with
  | nil => simp [Armament.removeLoop]; omega
  | cons w ws ih =>
    unfold Armament.removeLoop
    have hun : w.Uninstall.holds o = false := by
      simp [Weapon.holds, Weapon.Uninstall]
    by_cases hh : w.holds o = true
    · have hcond : w.GetOutfit = some o := by
        unfold Weapon.holds at hh
        simpa [Weapon.GetOutfit] using hh
      rw [if_pos hcond]
      split_ifs with hlast
      · simp only [List.countP_cons, hun, hh, if_true]
        push_cast
        omega
      · simp only [List.countP_cons, hun, hh, if_true]
        push_cast
        rw [ih (n - 1) (by omega)]
        omega
    · have hcond : ¬ w.GetOutfit = some o := by
        unfold Weapon.holds at hh
        simpa [Weapon.GetOutfit] using hh
      rw [if_neg hcond]
      simp only [List.countP_cons, hh]
      push_cast
      rw [ih n hn]
      omega

theorem dbl_div_of_ne_zero [LinearOrderedField F] (x y : F) (hy : y ≠ 0) :
    Dbl.div x y = Dbl.fin (x / y) := by
  unfold Dbl.div
  rw [if_neg hy]

theorem dbl_min_fin [LinearOrderedField F] (x y : F) :
    Dbl.min (Dbl.fin x) (Dbl.fin y) = Dbl.fin (min x y) := by
  unfold Dbl.min Dbl.lt
  by_cases h : y < x
  · simp [h, min_eq_right h.le]
  · simp [h, min_eq_left (not_lt.mp h)]

theorem dbl_max_fin [LinearOrderedField F] (x y : F) :
    Dbl.max (Dbl.fin x) (Dbl.fin y) = Dbl.fin (max x y) := by
  unfold Dbl.max Dbl.lt
  by_cases h : x < y
  · simp [h, max_eq_right h.le]
  · simp [h, max_eq_left (not_lt.mp h)]

/-- The value of `RendevousTime` when the leading coefficient is not zero, with the
exact square root: NaN for a negative discriminant, else the smaller root when both
are non-negative, the larger when one is, NaN when none is. -/
theorem RendevousTime_eq [LinearOrderedField F] (G : Geometry F A) (p v : Point F) (s : F)
    (ha : v.Dot v ≠ s * s) :
    RendevousTime G p v s =
      if (2 * p.Dot v) * (2 * p.Dot v) - 4 * (v.Dot v - s * s) * p.Dot p < 0 then Dbl.nan
      else
        if 0 ≤ (-(2 * p.Dot v) + G.sqrt ((2 * p.Dot v) * (2 * p.Dot v)
              - 4 * (v.Dot v - s * s) * p.Dot p)) / (2 * (v.Dot v - s * s)) ∧
            0 ≤ (-(2 * p.Dot v) - G.sqrt ((2 * p.Dot v) * (2 * p.Dot v)
              - 4 * (v.Dot v - s * s) * p.Dot p)) / (2 * (v.Dot v - s * s)) then
          Dbl.fin (min
            ((-(2 * p.Dot v) + G.sqrt ((2 * p.Dot v) * (2 * p.Dot v)
              - 4 * (v.Dot v - s * s) * p.Dot p)) / (2 * (v.Dot v - s * s)))
            ((-(2 * p.Dot v) - G.sqrt ((2 * p.Dot v) * (2 * p.Dot v)
              - 4 * (v.Dot v - s * s) * p.Dot p)) / (2 * (v.Dot v - s * s))))
        else if 0 ≤ (-(2 * p.Dot v) + G.sqrt ((2 * p.Dot v) * (2 * p.Dot v)
              - 4 * (v.Dot v - s * s) * p.Dot p)) / (2 * (v.Dot v - s * s)) ∨
            0 ≤ (-(2 * p.Dot v) - G.sqrt ((2 * p.Dot v) * (2 * p.Dot v)
              - 4 * (v.Dot v - s * s) * p.Dot p)) / (2 * (v.Dot v - s * s)) then
          Dbl.fin (max
            ((-(2 * p.Dot v) + G.sqrt ((2 * p.Dot v) * (2 * p.Dot v)
              - 4 * (v.Dot v - s * s) * p.Dot p)) / (2 * (v.Dot v - s * s)))
            ((-(2 * p.Dot v) - G.sqrt ((2 * p.Dot v) * (2 * p.Dot v)
              - 4 * (v.Dot v - s * s) * p.Dot p)) / (2 * (v.Dot v - s * s))))
        else Dbl.nan := by
  have h2a : 2 * (v.Dot v - s * s) ≠ 0 := mul_ne_zero two_ne_zero (sub_ne_zero.mpr ha)
  unfold RendevousTime
  simp only [dbl_div_of_ne_zero _ _ h2a, Dbl.ge0, dbl_min_fin, dbl_max_fin, Bool.and_eq_true,
    Bool.or_eq_true, decide_eq_true_eq]

/-- The earliest non-negative root among the two roots `r1`, `r2` of a quadratic, as
`RendevousTime` selects it. -/
theorem earliest_of_roots [LinearOrderedField F] (Q : F → Prop) (r1 r2 : F)
    (hroots : ∀ x, Q x ↔ x = r1 ∨ x = r2) :
    (∀ t,
      (if 0 ≤ r1 ∧ 0 ≤ r2 then Dbl.fin (min r1 r2)
        else if 0 ≤ r1 ∨ 0 ≤ r2 then Dbl.fin (max r1 r2) else Dbl.nan) = Dbl.fin t →
      0 ≤ t ∧ Q t ∧ ∀ u, 0 ≤ u → Q u → t ≤ u) ∧
    ((∃ u, 0 ≤ u ∧ Q u) →
      ∃ t, (if 0 ≤ r1 ∧ 0 ≤ r2 then Dbl.fin (min r1 r2)
        else if 0 ≤ r1 ∨ 0 ≤ r2 then Dbl.fin (max r1 r2) else Dbl.nan) = Dbl.fin t) ∧
    ((if 0 ≤ r1 ∧ 0 ≤ r2 then Dbl.fin (min r1 r2)
        else if 0 ≤ r1 ∨ 0 ≤ r2 then Dbl.fin (max r1 r2) else Dbl.nan) = Dbl.nan ∨
      ∃ t, (if 0 ≤ r1 ∧ 0 ≤ r2 then Dbl.fin (min r1 r2)
        else if 0 ≤ r1 ∨ 0 ≤ r2 then Dbl.fin (max r1 r2) else Dbl.nan) = Dbl.fin t) := by
  by_cases h1 : 0 ≤ r1 <;> by_cases h2 : 0 ≤ r2
  · simp only [h1, h2, and_self, if_true]
    refine ⟨?_, fun _ => ⟨_, rfl⟩, Or.inr ⟨_, rfl⟩⟩
    intro t ht
    cases ht
    refine ⟨le_min h1 h2, ?_, ?_⟩
    · rw [hroots]
      rcases min_choice r1 r2 with h | h <;> simp [h]
    · intro u _ hu
      rcases (hroots u).mp hu with h | h <;> simp [h]
  · have hmax : max r1 r2 = r1 := max_eq_left (le_trans (le_of_lt (not_le.mp h2)) h1)
    simp only [h1, h2, and_false, if_false, true_or, if_true, hmax]
    refine ⟨?_, fun _ => ⟨_, rfl⟩, Or.inr ⟨_, rfl⟩⟩
    intro t ht
    cases ht
    refine ⟨h1, (hroots _).mpr (Or.inl rfl), ?_⟩
    intro u hu0 hu
    rcases (hroots u).mp hu with h | h
    · exact h.ge
    · exact absurd (h ▸ hu0) h2
  · have hmax : max r1 r2 = r2 := max_eq_right (le_trans (le_of_lt (not_le.mp h1)) h2)
    simp only [h1, h2, false_and, if_false, or_true, if_true, hmax]
    refine ⟨?_, fun _ => ⟨_, rfl⟩, Or.inr ⟨_, rfl⟩⟩
    intro t ht
    cases ht
    refine ⟨h2, (hroots _).mpr (Or.inr rfl), ?_⟩
    intro u hu0 hu
    rcases (hroots u).mp hu with h | h
    · exact absurd (h ▸ hu0) h1
    · exact h.ge
  · rw [if_neg (fun h => h1 h.1), if_neg (fun h => h.elim h1 h2)]
    refine ⟨fun t ht => (by cases ht), ?_, Or.inl rfl⟩
    rintro ⟨u, hu0, hu⟩
    rcases (hroots u).mp hu with h | h
    · exact absurd (h ▸ hu0) h1
    · exact absurd (h ▸ hu0) h2

/-- The result of `RendevousTime` for a non-zero leading coefficient and the exact
square root: a finite result is the smallest non-negative root of the quadratic; a
non-negative root gives a finite result; the result is finite or NaN. -/
theorem RendevousTime_spec [LinearOrderedField F] (G : Geometry F A)
    (hsqrt : ∀ x : F, 0 ≤ x → 0 ≤ G.sqrt x ∧ G.sqrt x * G.sqrt x = x)
    (p v : Point F) (s : F) (ha : v.Dot v ≠ s * s) :
    (∀ t, RendevousTime G p v s = Dbl.fin t →
      0 ≤ t ∧ (v.Dot v - s * s) * t ^ 2 + 2 * p.Dot v * t + p.Dot p = 0 ∧
        ∀ u, 0 ≤ u → (v.Dot v - s * s) * u ^ 2 + 2 * p.Dot v * u + p.Dot p = 0 → t ≤ u) ∧
    ((∃ u, 0 ≤ u ∧ (v.Dot v - s * s) * u ^ 2 + 2 * p.Dot v * u + p.Dot p = 0) →
      ∃ t, RendevousTime G p v s = Dbl.fin t) ∧
    (RendevousTime G p v s = Dbl.nan ∨ ∃ t, RendevousTime G p v s = Dbl.fin t) := by
  have ha0 : v.Dot v - s * s ≠ 0 := sub_ne_zero.mpr ha
  rw [RendevousTime_eq G p v s ha]
  by_cases hD : (2 * p.Dot v) * (2 * p.Dot v) - 4 * (v.Dot v - s * s) * p.Dot p < 0
  · rw [if_pos hD]
    refine ⟨fun t ht => (by cases ht), ?_, Or.inl rfl⟩
    rintro ⟨u, -, hu⟩
    have hq : (v.Dot v - s * s) * (u * u) + 2 * p.Dot v * u + p.Dot p = 0 := by
      rw [← hu]; ring
    have := discrim_eq_sq_of_quadratic_eq_zero hq
    rw [discrim] at this
    have hsq := sq_nonneg (2 * (v.Dot v - s * s) * u + 2 * p.Dot v)
    rw [← this] at hsq
    have : (2 * p.Dot v) * (2 * p.Dot v) = (2 * p.Dot v) ^ 2 := by ring
    linarith
  · rw [if_neg hD]
    obtain ⟨hs0, hs1⟩ := hsqrt _ (not_lt.mp hD)
    have hdis : discrim (v.Dot v - s * s) (2 * p.Dot v) (p.Dot p)
        = G.sqrt ((2 * p.Dot v) * (2 * p.Dot v) - 4 * (v.Dot v - s * s) * p.Dot p)
          * G.sqrt ((2 * p.Dot v) * (2 * p.Dot v) - 4 * (v.Dot v - s * s) * p.Dot p) := by
      rw [hs1, discrim]; ring
    have hroots := fun x => quadratic_eq_zero_iff ha0 hdis x
    refine earliest_of_roots
      (fun x => (v.Dot v - s * s) * x ^ 2 + 2 * p.Dot v * x + p.Dot p = 0) _ _ (fun x => ?_)
    show (v.Dot v - s * s) * x ^ 2 + 2 * p.Dot v * x + p.Dot p = 0 ↔ _
    rw [sq]
    exact hroots x

theorem FireAntiMissile_of_strength_zero [LinearOrderedField F] [FloorRing F]
    (G : Geometry F A) (w : Weapon F A) (o : Outfit F) (ship : Ship F A)
    (projectile : Projectile F A) (effects : List (Effect F A)) (rand1 rand2 : Nat)
    (ho : w.outfit = some o) (hs : toInt o.antiMissile = 0) :
    w.FireAntiMissile G ship projectile effects rand1 rand2 = some (false, w, ship, effects) := by
  unfold Weapon.FireAntiMissile
  rw [ho]
  simp [hs]

theorem FireAntiMissile_of_out_of_range [LinearOrderedField F] [FloorRing F]
    (G : Geometry F A) (w : Weapon F A) (o : Outfit F) (ship : Ship F A)
    (projectile : Projectile F A) (effects : List (Effect F A)) (rand1 rand2 : Nat)
    (ho : w.outfit = some o)
    (hr : o.velocity
      < (projectile.Position.sub (ship.Position.add (G.Rotate ship.Facing w.point))).Length G) :
    w.FireAntiMissile G ship projectile effects rand1 rand2 = some (false, w, ship, effects) := by
  unfold Weapon.FireAntiMissile
  rw [ho]
  by_cases hs : toInt o.antiMissile = 0
  · simp [hs]
  · simp [hs, hr]

theorem FireAntiMissile_of_in_range [LinearOrderedField F] [FloorRing F]
    (G : Geometry F A) (w : Weapon F A) (o : Outfit F) (ship : Ship F A)
    (projectile : Projectile F A) (effects : List (Effect F A)) (rand1 rand2 : Nat)
    (ho : w.outfit = some o) (hs : toInt o.antiMissile ≠ 0)
    (hr : ¬ o.velocity
      < (projectile.Position.sub (ship.Position.add (G.Rotate ship.Facing w.point))).Length G) :
    w.FireAntiMissile G ship projectile effects rand1 rand2
      = if projectile.MissileStrength = 0 then none
        else some (decide (Int.tmod rand1 (toInt o.antiMissile)
              > Int.tmod rand2 projectile.MissileStrength),
            { w with reload := addAssign w.reload o.reload }, ship.ExpendAmmo o,
            effects ++ hitEffects o
              ((ship.Position.add (G.Rotate ship.Facing w.point)).add
                ((G.pointUnit (projectile.Position.sub
                  (ship.Position.add (G.Rotate ship.Facing w.point)))).scale
                    (1 / 2 * o.velocity)))
              ship.Velocity
              (G.Angle (Dbl.fin (180 / G.M_PI * G.atan2
                (projectile.Position.sub
                  (ship.Position.add (G.Rotate ship.Facing w.point))).X
                (-(projectile.Position.sub
                  (ship.Position.add (G.Rotate ship.Facing w.point))).Y))))) := by
  unfold Weapon.FireAntiMissile
  rw [ho]
  simp only [hs, if_false, gt_iff_lt, hr]

theorem installLoop_mem [LinearOrderedField F] (G : Geometry F A) (o : Outfit F)
    (isTurret : Bool) (count : Int) (ws : List (Weapon F A)) (n : Int) :
    ∀ s1 ∈ Armament.installLoop G o isTurret count ws n,
      ∃ s ∈ ws, s1 = s ∨ s1 = s.Install G (some o) := by
  induction ws generalizing n with
  | nil => simp [Armament.installLoop]
  | cons w ws ih =>
    intro s1 hs1
    unfold Armament.installLoop at hs1
    split_ifs at hs1
    · rcases List.mem_cons.mp hs1 with h | h
      · exact ⟨w, List.mem_cons_self _ _, Or.inr h⟩
      · exact ⟨s1, List.mem_cons_of_mem _ h, Or.inl rfl⟩
    · rcases List.mem_cons.mp hs1 with h | h
      · exact ⟨w, List.mem_cons_self _ _, Or.inr h⟩
      · obtain ⟨s, hs, hcase⟩ := ih _ s1 h
        exact ⟨s, List.mem_cons_of_mem _ hs, hcase⟩
    · rcases List.mem_cons.mp hs1 with h | h
      · exact ⟨w, List.mem_cons_self _ _, Or.inl h⟩
      · obtain ⟨s, hs, hcase⟩ := ih _ s1 h
        exact ⟨s, List.mem_cons_of_mem _ hs, hcase⟩

theorem removeLoop_mem [LinearOrderedField F] (o : Outfit F) (count : Int)
    (ws : List (Weapon F A)) (n : Int) :
    ∀ s1 ∈ Armament.removeLoop o count ws n, ∃ s ∈ ws, s1 = s ∨ s1 = s.Uninstall := by
  induction ws generalizing n with
  | nil => simp [Armament.removeLoop]
  | cons w ws ih =>
    intro s1 hs1
    unfold Armament.removeLoop at hs1
    split_ifs at hs1
    · rcases List.mem_cons.mp hs1 with h | h
      · exact ⟨w, List.mem_cons_self _ _, Or.inr h⟩
      · exact ⟨s1, List.mem_cons_of_mem _ h, Or.inl rfl⟩
    · rcases List.mem_cons.mp hs1 with h | h
      · exact ⟨w, List.mem_cons_self _ _, Or.inr h⟩
      · obtain ⟨s, hs, hcase⟩ := ih _ s1 h
        exact ⟨s, List.mem_cons_of_mem _ hs, hcase⟩
    · rcases List.mem_cons.mp hs1 with h | h
      · exact ⟨w, List.mem_cons_self _ _, Or.inl h⟩
      · obtain ⟨s, hs, hcase⟩ := ih _ s1 h
        exact ⟨s, List.mem_cons_of_mem _ hs, hcase⟩

/-- The slots after `Armament::Add` are slots of before, as they were, with the outfit
installed, or uninstalled. -/
theorem Add_mem [LinearOrderedField F] (G : Geometry F A) (a : Armament F A) (o : Outfit F)
    (count : Int) :
    ∀ s1 ∈ (a.Add G (some o) count).weapons,
      ∃ s ∈ a.weapons, s1 = s ∨ s1 = s.Install G (some o) ∨ s1 = s.Uninstall := by
  have hweapons : (a.Add G (some o) count).weapons
      = if count = 0 ∨ o.IsWeapon = false then a.weapons
        else if count < 0 then Armament.removeLoop o count a.weapons 0
        else Armament.installLoop G o (decide (o.turretMounts ≠ 0)) count a.weapons 0 := by
    by_cases h1 : count = 0 ∨ o.IsWeapon = false
    · simp only [Armament.Add, if_pos h1]
    · by_cases h2 : count < 0
      · simp only [Armament.Add, if_neg h1, if_pos h2]
      · simp only [Armament.Add, if_neg h1, if_neg h2]
  intro s1 hs1
  rw [hweapons] at hs1
  split_ifs at hs1 with h1 h2
  · exact ⟨s1, hs1, Or.inl rfl⟩
  · obtain ⟨s, hs, hcase⟩ := removeLoop_mem o count a.weapons 0 s1 hs1
    exact ⟨s, hs, hcase.imp_right Or.inr⟩
  · obtain ⟨s, hs, hcase⟩ := installLoop_mem G o _ count a.weapons 0 s1 hs1
    exact ⟨s, hs, hcase.imp_right Or.inl⟩

/-- The slot after `Weapon::FireAntiMissile` is the slot of before, as it was or with
the reload attribute added to its counter. -/
theorem FireAntiMissile_slot [LinearOrderedField F] [FloorRing F] (G : Geometry F A)
    (w : Weapon F A) (ship : Ship F A) (projectile : Projectile F A)
    (effects : List (Effect F A)) (rand1 rand2 : Nat)
    (r : Bool × Weapon F A × Ship F A × List (Effect F A))
    (h : w.FireAntiMissile G ship projectile effects rand1 rand2 = some r) :
    r.2.1 = w ∨ ∃ o, w.outfit = some o ∧
      r.2.1 = { w with reload := addAssign w.reload o.reload } := by
  rcases Option.eq_none_or_eq_some w.outfit with ho | ⟨o, ho⟩
  · unfold Weapon.FireAntiMissile at h
    rw [ho] at h
    cases h
  · by_cases hs : toInt o.antiMissile = 0
    · rw [FireAntiMissile_of_strength_zero G w o ship projectile effects rand1 rand2 ho hs] at h
      cases h
      exact Or.inl rfl
    · by_cases hr : o.velocity
        < (projectile.Position.sub (ship.Position.add (G.Rotate ship.Facing w.point))).Length G
      · rw [FireAntiMissile_of_out_of_range G w o ship projectile effects rand1 rand2 ho hr] at h
        cases h
        exact Or.inl rfl
      · rw [FireAntiMissile_of_in_range G w o ship projectile effects rand1 rand2 ho hs hr] at h
        split_ifs at h
        cases h
        exact Or.inr ⟨o, ho, rfl⟩

/-- A property of slots that holds for a new slot and is kept by `Install`,
`Uninstall`, the addition of the reload attribute to the counter of a ready slot and
`Step` holds for every slot of every reachable rack. -/
theorem Reachable.slots [LinearOrderedField F] [FloorRing F] (G : Geometry F A)
    (P : Outfit F → Prop) (Q : Weapon F A → Prop)
    (hcreate : ∀ point t, Q (Weapon.create G point t))
    (hinstall : ∀ s o, Q s → P o → Q (s.Install G (some o)))
    (huninstall : ∀ s, Q s → Q s.Uninstall)
    (hreload : ∀ s o, Q s → s.outfit = some o → s.reload ≤ 0 →
      Q { s with reload := addAssign s.reload o.reload })
    (hstep : ∀ s, Q s → Q s.Step)
    (a : Armament F A) (h : Reachable G P a) : ∀ s ∈ a.weapons, Q s := by
  induction h with
  | empty => simp [Armament.empty]
  | addGunPort a point _ ih =>
    intro s hs
    simp only [Armament.AddGunPort, List.mem_append, List.mem_singleton] at hs
    rcases hs with hs | hs
    · exact ih s hs
    · rw [hs]; exact hcreate _ _
  | addTurret a point _ ih =>
    intro s hs
    simp only [Armament.AddTurret, List.mem_append, List.mem_singleton] at hs
    rcases hs with hs | hs
    · exact ih s hs
    · rw [hs]; exact hcreate _ _
  | add a outfit count _ hP ih =>
    intro s1 hs1
    cases outfit with
    | none => exact ih s1 hs1
    | some o =>
      obtain ⟨s, hs, hcase⟩ := Add_mem G a o count s1 hs1
      rcases hcase with h | h | h
      · rw [h]; exact ih s hs
      · rw [h]; exact hinstall s o (ih s hs) (hP o rfl)
      · rw [h]; exact huninstall s (ih s hs)
  | fire a index ship projectiles _ ih =>
    intro s1 hs1
    rcases Armament.Fire_cases G a index ship projectiles with hno | hyes
    · rw [hno] at hs1
      exact ih s1 hs1
    · obtain ⟨w, o, ship1, p, hw, ho, hle, -, hf, -, -⟩ := hyes
      rw [hf] at hs1
      rcases List.mem_or_eq_of_mem_set hs1 with h | h
      · exact ih s1 h
      · rw [h]
        exact hreload w o (ih w (List.getElem?_mem hw)) ho hle
  | fireAntiMissile a index ship projectile effects rand1 rand2 r _ hr ih =>
    intro s1 hs1
    unfold Armament.FireAntiMissile at hr
    cases hw : a.weapons[toUnsigned index]? with
    | none =>
      rw [hw] at hr
      cases hr
      exact ih s1 hs1
    | some w =>
      rw [hw] at hr
      simp only at hr
      split_ifs at hr with hnr
      · cases hr
        exact ih s1 hs1
      · have hle : w.reload ≤ 0 := by
          have hready : w.IsReady = true := by simpa using hnr
          exact ((Weapon.IsReady_iff w).mp hready).2
        cases hfam : w.FireAntiMissile G ship projectile effects rand1 rand2 with
        | none =>
          rw [hfam] at hr
          cases hr
        | some r1 =>
          rw [hfam] at hr
          cases hr
          have hQw := ih w (List.getElem?_mem hw)
          rcases List.mem_or_eq_of_mem_set hs1 with h | h
          · exact ih s1 h
          · rw [h]
            rcases FireAntiMissile_slot G w ship projectile effects rand1 rand2 r1 hfam
              with h1 | ⟨o, ho, h1⟩
            · rw [h1]; exact hQw
            · rw [h1]; exact hreload w o hQw ho hle
  | step a ship _ ih =>
    intro s1 hs1
    simp only [Armament.Step, List.mem_map] at hs1
    obtain ⟨s, hs, rfl⟩ := hs1
    exact hstep s (ih s hs)

theorem Install_some [LinearOrderedField F] (G : Geometry F A) (s : Weapon F A) (o : Outfit F) :
    s.Install G (some o)
      = if (o.IsWeapon && (decide (o.turretMounts = 0) || s.isTurret)) = true then
          if (!s.isTurret) = true then
            { s with outfit := some o, angle := G.Angle (convergence G s.point o.range) }
          else { s with outfit := some o }
        else s :=
  rfl

theorem streamAfter_some [LinearOrderedField F] [FloorRing F] (a : Armament F A)
    (o1 o : Outfit F) (c : Int) (h : streamAfter a o1 o = some c) :
    ∃ c0, a.streamReload o = some c0 := by
  unfold streamAfter at h
  cases h1 : a.streamReload o1 with
  | none =>
    rw [h1] at h
    exact ⟨c, h⟩
  | some c1 =>
    rw [h1] at h
    by_cases ho : o = o1
    · subst ho
      exact ⟨c1, h1⟩
    · simp only [Function.update_noteq ho] at h
      exact ⟨c, h⟩

/-- The stream counter of a streamable weapon type after `Armament::Add` with a count
that is not zero: the count when there was no entry; no entry when the old value and
the count add up to zero; their sum otherwise. -/
theorem Add_stream [LinearOrderedField F] (G : Geometry F A) (a : Armament F A)
    (w : Outfit F) (count : Int) (hweapon : w.IsWeapon = true)
    (hstream : w.missileStrength = 0 ∧ w.antiMissile = 0) (hcount : count ≠ 0) :
    (a.Add G (some w) count).streamReload w
      = match a.streamReload w with
        | none => some count
        | some c => if c + count = 0 then none else some (c + count) := by
  cases hc : a.streamReload w with
  | none => simp [Armament.Add, hweapon, hstream.1, hstream.2, hc, hcount]
  | some c =>
    by_cases hz : c + count = 0 <;>
      simp [Armament.Add, hweapon, hstream.1, hstream.2, hc, hcount, hz]

theorem Add_stream_other [LinearOrderedField F] (G : Geometry F A) (a : Armament F A)
    (w o : Outfit F) (count : Int) (ho : o ≠ w) :
    (a.Add G (some w) count).streamReload o = a.streamReload o := by
  by_cases h1 : count = 0 ∨ w.IsWeapon = false
  · simp only [Armament.Add, if_pos h1]
  · by_cases h2 : w.missileStrength = 0 ∧ w.antiMissile = 0
    · simp only [Armament.Add, if_neg h1, if_pos h2]
      cases hc : a.streamReload w with
      | none => simp only [Function.update_noteq ho]
      | some c =>
        simp only
        split_ifs <;> simp only [Function.update_noteq ho]
    · simp only [Armament.Add, if_neg h1, if_neg h2]

theorem Add_stream_streamable [LinearOrderedField F] (G : Geometry F A) (a : Armament F A)
    (w : Outfit F) (count c : Int) (h : (a.Add G (some w) count).streamReload w = some c)
    (hnone : a.streamReload w = none) :
    w.IsWeapon = true ∧ w.missileStrength = 0 ∧ w.antiMissile = 0 := by
  by_cases h1 : count = 0 ∨ w.IsWeapon = false
  · simp only [Armament.Add, if_pos h1] at h
    rw [hnone] at h
    cases h
  · by_cases h2 : w.missileStrength = 0 ∧ w.antiMissile = 0
    · push_neg at h1
      exact ⟨by simpa using h1.2, h2.1, h2.2⟩
    · simp only [Armament.Add, if_neg h1, if_neg h2] at h
      rw [hnone] at h
      cases h

theorem FireAntiMissile_stream [LinearOrderedField F] [FloorRing F] (G : Geometry F A)
    (a : Armament F A) (index : Int) (ship : Ship F A) (projectile : Projectile F A)
    (effects : List (Effect F A)) (rand1 rand2 : Nat)
    (r : Bool × Armament F A × Ship F A × List (Effect F A))
    (h : a.FireAntiMissile G index ship projectile effects rand1 rand2 = some r) :
    r.2.1.streamReload = a.streamReload := by
  unfold Armament.FireAntiMissile at h
  cases hw : a.weapons[toUnsigned index]? with
  | none =>
    rw [hw] at h
    cases h
    rfl
  | some w =>
    rw [hw] at h
    simp only at h
    split_ifs at h
    · cases h
      rfl
    · cases hfam : w.FireAntiMissile G ship projectile effects rand1 rand2 with
      | none =>
        rw [hfam] at h
        cases h
      | some r1 =>
        rw [hfam] at h
        cases h
        rfl

/-- In every reachable rack a stream counter exists only for streamable weapon
types. -/
theorem Reachable.stream [LinearOrderedField F] [FloorRing F] (G : Geometry F A)
    (P : Outfit F → Prop) (a : Armament F A) (h : Reachable G P a) :
    ∀ o c, a.streamReload o = some c →
      o.IsWeapon = true ∧ o.missileStrength = 0 ∧ o.antiMissile = 0 := by
  induction h with
  | empty =>
    intro o c hc
    simp [Armament.empty] at hc
  | addGunPort a point _ ih => exact ih
  | addTurret a point _ ih => exact ih
  | add a outfit count _ _ ih =>
    intro o c hc
    cases outfit with
    | none => exact ih o c hc
    | some w =>
      by_cases ho : o = w
      · subst ho
        cases hold : a.streamReload o with
        | none => exact Add_stream_streamable G a o count c hc hold
        | some c0 => exact ih o c0 hold
      · rw [Add_stream_other G a w o count ho] at hc
        exact ih o c hc
  | fire a index ship projectiles _ ih =>
    intro o c hc
    rcases Armament.Fire_cases G a index ship projectiles with hno | hyes
    · rw [hno] at hc
      exact ih o c hc
    · obtain ⟨w, o1, ship1, p, -, -, -, -, hf, -, -⟩ := hyes
      rw [hf] at hc
      obtain ⟨c0, hc0⟩ := streamAfter_some a o1 o c hc
      exact ih o c0 hc0
  | fireAntiMissile a index ship projectile effects rand1 rand2 r _ hr ih =>
    intro o c hc
    rw [FireAntiMissile_stream G a index ship projectile effects rand1 rand2 r hr] at hc
    exact ih o c hc
  | step a ship _ ih =>
    intro o c hc
    simp only [Armament.Step, Option.map_eq_some'] at hc
    obtain ⟨c0, hc0, -⟩ := hc
    exact ih o c0 hc0

theorem find?_unique {α : Type} (p : α → Bool) (l : List α) (x : α) (hx : x ∈ l)
    (hp : p x = true) (huniq : ∀ y ∈ l, p y = true → y = x) : l.find? p = some x := by
  induction l with
  | nil => cases hx
  | cons a l ih =>
    by_cases ha : p a = true
    · have := huniq a (List.mem_cons_self _ _) ha
      subst this
      simp [List.find?, ha]
    · have hxl : x ∈ l := by
        rcases List.mem_cons.mp hx with h | h
        · subst h
          exact absurd hp ha
        · exact h
      rw [List.find?_cons_of_neg _ ha]
      exact ih hxl (fun y hy => huniq y (List.mem_cons_of_mem _ hy))

theorem nodup_getElem?_inj {α : Type} (l : List α) (h : l.Nodup) (i j : Nat) (a : α)
    (hi : l[i]? = some a) (hj : l[j]? = some a) : i = j := by
  have hil := (List.getElem?_eq_some_iff.mp hi).1
  have hjl := (List.getElem?_eq_some_iff.mp hj).1
  by_contra hne
  rcases Nat.lt_or_gt_of_ne hne with hlt | hlt
  · exact List.nodup_iff_getElem?_ne_getElem?.mp h i j hlt hjl (hi.trans hj.symm)
  · exact List.nodup_iff_getElem?_ne_getElem?.mp h j i hlt hil (hj.trans hi.symm)

/-- The successor index of the loop of `GenerateLinks` is the index plus one modulo
the number of systems. -/
theorem next_eq_mod (n i : Nat) (hi : i < n) :
    (if i = n - 1 then 0 else i + 1) = (i + 1) % n := by
  split_ifs with h
  · have : i + 1 = n := by omega
    rw [this, Nat.mod_self]
  · rw [Nat.mod_eq_of_lt (by omega)]

theorem loop_getElem? (systems : List System) (i : Nat) (s t : System) :
    (systems.zip (systems.rotate 1))[i]? = some (s, t)
      ↔ systems[i]? = some s ∧ systems[(i + 1) % systems.length]? = some t := by
  rw [List.getElem?_zip_eq_some]
  constructor
  · rintro ⟨h1, h2⟩
    have hi := (List.getElem?_eq_some_iff.mp h1).1
    rw [List.getElem?_rotate hi] at h2
    exact ⟨h1, h2⟩
  · rintro ⟨h1, h2⟩
    have hi := (List.getElem?_eq_some_iff.mp h1).1
    exact ⟨h1, by rw [List.getElem?_rotate hi]; exact h2⟩

theorem linkSystem_append (planet : Planet) (hnodup : planet.Systems.Nodup)
    (hsprite : ∀ s ∈ planet.Systems, planet.HasSprite s = true) (k : Nat)
    (hk : k < planet.Systems.length) :
    Wormhole.linkSystem planet ((planet.Systems.zip (planet.Systems.rotate 1)).take k) k
      = (planet.Systems.zip (planet.Systems.rotate 1)).take (k + 1) := by
  have hn : (k + 1) % planet.Systems.length < planet.Systems.length :=
    Nat.mod_lt _ (by omega)
  have hs : planet.Systems[k]? = some planet.Systems[k] := List.getElem?_eq_getElem hk
  have ht : planet.Systems[(k + 1) % planet.Systems.length]?
      = some planet.Systems[(k + 1) % planet.Systems.length] := List.getElem?_eq_getElem hn
  have hz : (planet.Systems.zip (planet.Systems.rotate 1))[k]?
      = some (planet.Systems[k], planet.Systems[(k + 1) % planet.Systems.length]) :=
    (loop_getElem? planet.Systems k _ _).mpr ⟨hs, ht⟩
  have hfind : Links.find ((planet.Systems.zip (planet.Systems.rotate 1)).take k)
      planet.Systems[k] = none := by
    unfold Links.find
    rw [List.find?_eq_none]
    intro e he
    simp only [decide_eq_true_eq]
    intro heq
    obtain ⟨j, hj⟩ := List.mem_iff_getElem?.mp he
    have hjk : j < k := by
      have := (List.getElem?_eq_some_iff.mp hj).1
      rw [List.length_take] at this
      omega
    rw [List.getElem?_take_of_lt hjk] at hj
    have hj1 := ((loop_getElem? planet.Systems j e.1 e.2).mp hj).1
    rw [heq] at hj1
    have := nodup_getElem?_inj planet.Systems hnodup j k _ hj1 hs
    omega
  unfold Wormhole.linkSystem
  simp only [next_eq_mod planet.Systems.length k hk, hs, ht,
    hsprite _ (List.getElem_mem hk), if_true]
  unfold Links.assign
  rw [hfind, List.take_succ, hz]
  rfl

theorem generate_fold (planet : Planet) (hnodup : planet.Systems.Nodup)
    (hsprite : ∀ s ∈ planet.Systems, planet.HasSprite s = true) (k : Nat)
    (hk : k ≤ planet.Systems.length) :
    (List.range k).foldl (Wormhole.linkSystem planet) []
      = (planet.Systems.zip (planet.Systems.rotate 1)).take k := by
  induction k with
  | zero => simp
  | succ k ih =>
    rw [List.range_succ, List.foldl_append, ih (by omega)]
    exact linkSystem_append planet hnodup hsprite k (by omega)

/-- The links that `LoadFromPlanet` generates for a planet with pairwise different
systems and a sprite in each: every system paired with the next one. -/
theorem LoadFromPlanet_links (w : Wormhole) (planet : Planet)
    (hnodup : planet.Systems.Nodup)
    (hsprite : ∀ s ∈ planet.Systems, planet.HasSprite s = true) :
    (w.LoadFromPlanet planet).links = planet.Systems.zip (planet.Systems.rotate 1) := by
  have h := generate_fold planet hnodup hsprite planet.Systems.length (le_refl _)
  rw [List.take_of_length_le (by simp)] at h
  simpa [Wormhole.LoadFromPlanet, Wormhole.GenerateLinks] using h

/-- In the generated loop the destination of a system is the next system and the
source of the next system is the system. -/
theorem loop_step (w : Wormhole) (planet : Planet) (hnodup : planet.Systems.Nodup)
    (hsprite : ∀ s ∈ planet.Systems, planet.HasSprite s = true) (i : Nat) (s t : System)
    (hs : planet.Systems[i]? = some s)
    (ht : planet.Systems[(i + 1) % planet.Systems.length]? = some t) :
    (w.LoadFromPlanet planet).WormholeDestination s = t ∧
      (w.LoadFromPlanet planet).WormholeSource t = s := by
  have hlinks := LoadFromPlanet_links w planet hnodup hsprite
  have hz : (planet.Systems.zip (planet.Systems.rotate 1))[i]? = some (s, t) :=
    (loop_getElem? planet.Systems i s t).mpr ⟨hs, ht⟩
  have hmem : (s, t) ∈ planet.Systems.zip (planet.Systems.rotate 1) := List.getElem?_mem hz
  constructor
  · unfold Wormhole.WormholeDestination Links.find
    rw [hlinks, find?_unique _ _ (s, t) hmem (by simp)]
    intro y hy hp
    simp only [decide_eq_true_eq] at hp
    obtain ⟨j, hj⟩ := List.mem_iff_getElem?.mp hy
    obtain ⟨hj1, hj2⟩ := (loop_getElem? planet.Systems j y.1 y.2).mp hj
    rw [hp] at hj1
    have hji := nodup_getElem?_inj planet.Systems hnodup j i s hj1 hs
    subst hji
    rw [ht] at hj2
    exact Prod.ext hp (Option.some.inj hj2).symm
  · unfold Wormhole.WormholeSource
    rw [hlinks, find?_unique _ _ (s, t) hmem (by simp)]
    intro y hy hp
    simp only [decide_eq_true_eq] at hp
    obtain ⟨j, hj⟩ := List.mem_iff_getElem?.mp hy
    obtain ⟨hj1, hj2⟩ := List.getElem?_zip_eq_some.mp hj
    have hi2 := (List.getElem?_zip_eq_some.mp hz).2
    rw [hp] at hj2
    have hji := nodup_getElem?_inj (planet.Systems.rotate 1) (List.nodup_rotate.mpr hnodup)
      j i t hj2 hi2
    subst hji
    rw [hs] at hj1
    exact Prod.ext (Option.some.inj hj1).symm hp

theorem loop_iterate (w : Wormhole) (planet : Planet) (hnodup : planet.Systems.Nodup)
    (hsprite : ∀ s ∈ planet.Systems, planet.HasSprite s = true) (k : Nat) :
    ∀ (i : Nat) (s : System), planet.Systems[i]? = some s →
      planet.Systems[(i + k) % planet.Systems.length]?
        = some ((w.LoadFromPlanet planet).WormholeDestination^[k] s) := by
  induction k with
  | zero =>
    intro i s hs
    have hi := (List.getElem?_eq_some_iff.mp hs).1
    simpa [Nat.mod_eq_of_lt hi] using hs
  | succ k ih =>
    intro i s hs
    have hi := (List.getElem?_eq_some_iff.mp hs).1
    have hn : (i + 1) % planet.Systems.length < planet.Systems.length :=
      Nat.mod_lt _ (by omega)
    have ht := List.getElem?_eq_getElem hn
    have hd := (loop_step w planet hnodup hsprite i s _ hs ht).1
    rw [Function.iterate_succ_apply, hd, ← ih _ _ ht, Nat.mod_add_mod]
    congr 2
    omega

end Lemmas

/-! ## The claims -/

section Claims

variable {F A : Type}

/-- C1, counterexample: a fresh rack with one gun slot at offset `(0, 0)`, a streamable
weapon with reload 5, range 100 and velocity 50 installed by `Add(weapon, 1)`, a host
that counts one copy.  The call `Fire(0, host, sink)` right after the `Add` appends
no projectile: the `Add` has set the stream counter of the weapon to 1. -/
theorem end_to_end_firing_counterexample :
    ((gunRack 1).Add upright (some (blaster 5)) 1).weapons.map (fun w => (w.outfit, w.reload))
        = [(some (blaster 5), 0)] ∧
      ((gunRack 1).Add upright (some (blaster 5)) 1).streamReload (blaster 5) = some 1 ∧
      (host 1).OutfitCount (blaster 5) = 1 ∧
      (Armament.Fire upright ((gunRack 1).Add upright (some (blaster 5)) 1) 0 (host 1) []).2.2.length
        = 0 := by
  decide

/-- C1, amended: on a fresh rack with one gun slot at offset `(0, 0)` and a streamable
gun with reload 5 installed by `Add(weapon, 1)`, with a host that counts one copy,
`Fire(0, host, sink)` right after the `Add` is a no-op; after one `Armament::Step` a
single `Fire(0, host, sink)` appends exactly one projectile to the sink and sets the
reload counter of slot 0 to 5; a further `Fire(0, ...)` is a no-op after fewer than
5 `Step` calls and appends a projectile again once 5 `Step` calls have elapsed. -/
theorem end_to_end_firing [LinearOrderedField F] [FloorRing F] (G : Geometry F A)
    (weapon : Outfit F) (ship : Ship F A) (sink : List (Projectile F A))
    (hweapon : weapon.IsWeapon = true) (hgun : weapon.turretMounts = 0)
    (hstream : weapon.missileStrength = 0 ∧ weapon.antiMissile = 0)
    (hreload : weapon.reload = 5) (hcount : ship.OutfitCount weapon = 1) :
    Armament.Fire G ((Armament.empty.AddGunPort G ⟨0, 0⟩).Add G (some weapon) 1) 0 ship sink
      = ((Armament.empty.AddGunPort G ⟨0, 0⟩).Add G (some weapon) 1, ship, sink) ∧
    ∃ a1 ship1 p,
      Armament.Fire G (((Armament.empty.AddGunPort G ⟨0, 0⟩).Add G (some weapon) 1).Step ship)
          0 ship sink = (a1, ship1, sink ++ [p]) ∧
      p.weapon = weapon ∧
      a1.weapons[0]?.map (fun w => (w.outfit, w.reload)) = some (some weapon, 5) ∧
      ∀ (host : Ship F A) (sink2 : List (Projectile F A)), host.OutfitCount weapon = 1 →
        (∀ k, k < 5 →
          (a1.StepN host k).Fire G 0 host sink2 = (a1.StepN host k, host, sink2)) ∧
        ∃ a2 host2 q,
          (a1.StepN host 5).Fire G 0 host sink2 = (a2, host2, sink2 ++ [q]) ∧
          q.weapon = weapon := by
  have hu : toUnsigned 0 = 0 := by decide
  have hslot : ((Armament.empty.AddGunPort G ⟨0, 0⟩).Add G (some weapon) 1).weapons
      = [{ outfit := some weapon, point := (⟨0, 0⟩ : Point F).scale (1 / 2),
           angle := G.Angle (convergence G ((⟨0, 0⟩ : Point F).scale (1 / 2)) weapon.range),
           reload := 0, isTurret := false }] := by
    simp [Armament.Add, Armament.AddGunPort, Armament.empty, Armament.installLoop,
      Weapon.Install, Weapon.create, Weapon.GetOutfit, Weapon.IsTurret, hweapon, hgun]
  have hsr : ((Armament.empty.AddGunPort G ⟨0, 0⟩).Add G (some weapon) 1).streamReload weapon
      = some 1 := by
    simp [Armament.Add, Armament.AddGunPort, Armament.empty, hweapon, hstream.1, hstream.2]
  constructor
  · have hslot0 : ((Armament.empty.AddGunPort G ⟨0, 0⟩).Add G
        (some weapon) 1).weapons[toUnsigned 0]?
        = some { outfit := some weapon, point := (⟨0, 0⟩ : Point F).scale (1 / 2),
                 angle := G.Angle
                   (convergence G ((⟨0, 0⟩ : Point F).scale (1 / 2)) weapon.range),
                 reload := 0, isTurret := false } := by
      rw [hu, hslot]
      rfl
    exact Armament.Fire_of_blocked G _ 0 ship sink _ weapon 1 hslot0 rfl hsr one_pos
  · have hslot1 : (((Armament.empty.AddGunPort G ⟨0, 0⟩).Add G (some weapon) 1).Step
        ship).weapons[toUnsigned 0]?
        = some { outfit := some weapon, point := (⟨0, 0⟩ : Point F).scale (1 / 2),
                 angle := G.Angle
                   (convergence G ((⟨0, 0⟩ : Point F).scale (1 / 2)) weapon.range),
                 reload := 0, isTurret := false } := by
      rw [hu]
      simp [Armament.Step, hslot, Weapon.Step]
    have hsr1 : (((Armament.empty.AddGunPort G ⟨0, 0⟩).Add G (some weapon) 1).Step
        ship).streamReload weapon = some 0 := by
      simp [Armament.Step, hsr, hcount]
    obtain ⟨a1, ship1, p, hf, hp, hw1, hcycle⟩ :=
      fire_cycle G _ 0 _ weapon 5 hslot1 rfl (by rw [hreload]; norm_num) (by norm_num)
        (le_refl _) (by norm_num) (Or.inl hsr1) ship sink
    refine ⟨a1, ship1, p, hf, hp, ?_, hcycle⟩
    rw [hu] at hw1
    rw [hw1]
    simp

/-- Witness of C1, amended: the blaster with reload 5 over the rationals. -/
theorem end_to_end_firing_witness :
    Armament.Fire upright ((Armament.empty.AddGunPort upright ⟨0, 0⟩).Add upright
        (some (blaster 5)) 1) 0 (host 1) []
      = ((Armament.empty.AddGunPort upright ⟨0, 0⟩).Add upright (some (blaster 5)) 1,
          host 1, []) :=
  (end_to_end_firing upright (blaster 5) (host 1) [] rfl rfl ⟨rfl, rfl⟩ rfl rfl).1

/-- C3: `Armament::Fire` is a complete no-op when it cannot fire.  For a rack of at
most `2 ^ 31` slots and every `int` index: if the index is out of bounds (negative,
or at least the slot count), or the slot is not ready, or the weapon type of the slot
has a stream counter with a positive value, then `Fire` leaves the rack (all slots
and all stream counters), the host and the projectile list unchanged; under the
first two conditions `Armament::FireAntiMissile` returns false and leaves the rack,
the host and the effect list unchanged. -/
theorem Fire_noop_when_unable [LinearOrderedField F] [FloorRing F] (G : Geometry F A)
    (a : Armament F A) (index : Int) (ship : Ship F A) (projectiles : List (Projectile F A))
    (hint : -2 ^ 31 ≤ index ∧ index < 2 ^ 31) (hsize : a.weapons.length ≤ 2 ^ 31)
    (h : (index < 0 ∨ (a.weapons.length : Int) ≤ index)
      ∨ (∃ w, a.weapons[index.toNat]? = some w ∧ w.IsReady = false)
      ∨ (∃ w o c, a.weapons[index.toNat]? = some w ∧ w.outfit = some o
          ∧ a.streamReload o = some c ∧ 0 < c)) :
    a.Fire G index ship projectiles = (a, ship, projectiles) ∧
    (((index < 0 ∨ (a.weapons.length : Int) ≤ index)
        ∨ (∃ w, a.weapons[index.toNat]? = some w ∧ w.IsReady = false)) →
      ∀ (projectile : Projectile F A) (effects : List (Effect F A)) (rand1 rand2 : Nat),
        a.FireAntiMissile G index ship projectile effects rand1 rand2
          = some (false, a, ship, effects)) := by
  by_cases hout : index < 0 ∨ (a.weapons.length : Int) ≤ index
  · have hnone := slot_none_of_out_of_bounds a index hint hsize hout
    exact ⟨Armament.Fire_of_none G a index ship projectiles hnone, fun _ projectile effects r1 r2 =>
      Armament.FireAntiMissile_of_none G a index ship projectile effects r1 r2 hnone⟩
  · have hu : toUnsigned index = index.toNat :=
      toUnsigned_of_nonneg index (by omega) hint.2
    rcases h with h | ⟨w, hw, hr⟩ | ⟨w, o, c, hw, ho, hc, hpos⟩
    · exact absurd h hout
    · rw [← hu] at hw
      exact ⟨Armament.Fire_of_notReady G a index ship projectiles w hw hr,
        fun _ projectile effects r1 r2 =>
          Armament.FireAntiMissile_of_notReady G a index ship projectile effects r1 r2 w hw hr⟩
    · rw [← hu] at hw
      refine ⟨Armament.Fire_of_blocked G a index ship projectiles w o c hw ho hc hpos, ?_⟩
      rintro (h | ⟨w1, hw1, hr⟩) projectile effects r1 r2
      · exact absurd h hout
      · rw [← hu] at hw1
        exact Armament.FireAntiMissile_of_notReady G a index ship projectile effects r1 r2 w1 hw1 hr

/-- Witness of C3: the index `-1` on a rack with one gun slot. -/
theorem Fire_noop_when_unable_witness :
    Armament.Fire upright (gunRack 1) (-1) (host 1) [] = (gunRack 1, host 1, []) :=
  (Fire_noop_when_unable upright (gunRack 1) (-1) (host 1) [] (by decide) (by decide)
    (Or.inl (Or.inl (by decide)))).1

/-- C4: install fills the first compatible empty slots.  For every rack, weapon type
`w` and `count > 0`, after `Armament::Add(w, count)`: a slot that was empty and
compatible with `w` (a turret slot for a weapon with turret mounts, a gun slot
otherwise) and that is preceded by fewer than `count` such slots now holds `w`, its
mount point, reload counter and turret flag unchanged; every other slot is unchanged;
the number of slots holding `w` has grown by `min(count, k)`, `k` the number of empty
compatible slots, so a request exceeding `k` installs `k` copies and nothing else
happens. -/
theorem Add_fills_first_compatible_slots [LinearOrderedField F] (G : Geometry F A)
    (a : Armament F A) (w : Outfit F) (count : Int)
    (hweapon : w.IsWeapon = true) (hcount : 0 < count) :
    (a.Add G (some w) count).weapons.length = a.weapons.length ∧
    (∀ j s, a.weapons[j]? = some s →
      ∃ s1, (a.Add G (some w) count).weapons[j]? = some s1 ∧
        ((s.accepts w = true ∧
            ((a.weapons.take j).countP (fun t => t.accepts w) : Int) < count) →
          s1.outfit = some w ∧ s1.point = s.point ∧ s1.reload = s.reload ∧
            s1.isTurret = s.isTurret) ∧
        (¬ (s.accepts w = true ∧
            ((a.weapons.take j).countP (fun t => t.accepts w) : Int) < count) →
          s1 = s)) ∧
    (((a.Add G (some w) count).weapons.countP (fun t => t.holds w) : Nat) : Int)
      = (a.weapons.countP (fun t => t.holds w) : Nat)
        + min count (a.weapons.countP (fun t => t.accepts w) : Nat) := by
  have hweapons : (a.Add G (some w) count).weapons
      = Armament.installLoop G w (decide (w.turretMounts ≠ 0)) count a.weapons 0 := by
    simp [Armament.Add, hweapon, not_lt.mpr hcount.le, hcount.ne']
  rw [hweapons]
  refine ⟨installLoop_length G w _ count a.weapons 0, ?_, ?_⟩
  · intro j s hs
    rw [installLoop_getElem G w count a.weapons 0 hcount j, hs]
    simp only [zero_add, Option.map_some']
    refine ⟨_, rfl, ?_, ?_⟩
    · intro hc
      rw [if_pos hc]
      exact Install_of_accepts G s w hweapon hc.1
    · intro hc
      rw [if_neg hc]
  · have := installLoop_count G w hweapon count a.weapons 0 hcount
    simpa using this

/-- Witness of C4: three blasters requested on a rack with two gun slots. -/
theorem Add_fills_first_compatible_slots_witness :
    (((gunRack 2).Add upright (some (blaster 5)) 3).weapons.countP
        (fun t => t.holds (blaster 5)) : Int)
      = ((gunRack 2).weapons.countP (fun t => t.holds (blaster 5)) : Nat)
        + min 3 ((gunRack 2).weapons.countP (fun t => t.accepts (blaster 5)) : Nat) :=
  (Add_fills_first_compatible_slots upright (gunRack 2) (blaster 5) 3 rfl (by decide)).2.2

/-- C5: removal clears the first matching slots and never more than are present.
For every rack, weapon type `w` and `count < 0`, after `Armament::Add(w, count)`: a
slot that held `w` and is preceded by fewer than `|count|` slots holding `w` is
empty, the rest of it unchanged; every other slot is unchanged; the number of slots
holding `w` has gone down by `min(|count|, m)`, `m` the number of slots that held
`w`, so that no slot holds `w` any more when `|count| >= m`. -/
theorem Add_clears_first_matching_slots [LinearOrderedField F] (G : Geometry F A)
    (a : Armament F A) (w : Outfit F) (count : Int)
    (hweapon : w.IsWeapon = true) (hcount : count < 0) :
    (a.Add G (some w) count).weapons.length = a.weapons.length ∧
    (∀ j s, a.weapons[j]? = some s →
      (a.Add G (some w) count).weapons[j]?
        = some (if s.holds w = true ∧
                  ((a.weapons.take j).countP (fun t => t.holds w) : Int) < -count
                then { s with outfit := none } else s)) ∧
    (((a.Add G (some w) count).weapons.countP (fun t => t.holds w) : Nat) : Int)
      = (a.weapons.countP (fun t => t.holds w) : Nat)
        - min (-count) (a.weapons.countP (fun t => t.holds w) : Nat) ∧
    (((a.weapons.countP (fun t => t.holds w) : Nat) : Int) ≤ -count →
      ∀ s ∈ (a.Add G (some w) count).weapons, s.outfit ≠ some w) := by
  have hweapons : (a.Add G (some w) count).weapons
      = Armament.removeLoop w count a.weapons 0 := by
    simp [Armament.Add, hweapon, hcount, hcount.ne]
  have hcnt := removeLoop_count w count a.weapons 0 hcount
  rw [hweapons]
  refine ⟨removeLoop_length w count a.weapons 0, ?_, by simpa using hcnt, ?_⟩
  · intro j s hs
    rw [removeLoop_getElem w count a.weapons 0 hcount j, hs]
    simp only [zero_sub, Option.map_some']
    rfl
  · intro hle s hs hout
    have hzero : (Armament.removeLoop w count a.weapons 0).countP (fun t => t.holds w) = 0 := by
      have : min (0 - count) ((a.weapons.countP (fun t => t.holds w) : Nat) : Int)
          = (a.weapons.countP (fun t => t.holds w) : Nat) := by
        rw [zero_sub]; exact min_eq_right hle
      rw [this] at hcnt
      omega
    rw [List.countP_eq_zero] at hzero
    exact hzero s hs (by simp [Weapon.holds, hout])

/-- Witness of C5: `Add(w, -5)` with two copies installed. -/
theorem Add_clears_first_matching_slots_witness :
    (((gunRack 2).Add upright (some (blaster 5)) 2).Add upright
        (some (blaster 5)) (-5)).weapons[0]?
      = some (if (⟨some (blaster 5), ⟨0, 0⟩, (), 0, false⟩ : Weapon ℚ Unit).holds (blaster 5)
                = true ∧
              (((((gunRack 2).Add upright (some (blaster 5)) 2).weapons.take 0).countP
                (fun t => t.holds (blaster 5)) : Nat) : Int) < -(-5)
          then { (⟨some (blaster 5), ⟨0, 0⟩, (), 0, false⟩ : Weapon ℚ Unit) with outfit := none }
          else ⟨some (blaster 5), ⟨0, 0⟩, (), 0, false⟩) :=
  (Add_clears_first_matching_slots upright ((gunRack 2).Add upright (some (blaster 5)) 2)
    (blaster 5) (-5) rfl (by decide)).2.1 0 _ (by decide!)

/-- C6, counterexample: two blasters installed by `Add(type, 2)` on a fresh rack with
two gun slots.  After `Add(type, -5)` both slots are empty, but the stream counter of
the type is still there, with the value `2 - 5 = -3`. -/
theorem over_removal_counterexample :
    (((gunRack 2).Add upright (some (blaster 5)) 2).weapons.map fun s => s.outfit)
        = [some (blaster 5), some (blaster 5)] ∧
      ((((gunRack 2).Add upright (some (blaster 5)) 2).Add upright
        (some (blaster 5)) (-5)).weapons.map fun s => s.outfit) = [none, none] ∧
      (((gunRack 2).Add upright (some (blaster 5)) 2).Add upright
        (some (blaster 5)) (-5)).streamReload (blaster 5) = some (-3) := by
  decide

/-- C6, amended: for a streamable weapon type without a stream counter, after
`Armament::Add(type, n)` and `Armament::Add(type, m)` with `n` and `m` not zero the
stream counter of the type is `n + m`, and the entry is deleted exactly when
`n + m = 0`.  After `Add(type, 2)` and `Add(type, -5)` the table has the entry `-3`
for the type; after `Add(type, 2)` and `Add(type, -2)` it has no entry. -/
theorem over_removal_keeps_stream_counter [LinearOrderedField F] (G : Geometry F A)
    (a : Armament F A) (w : Outfit F) (n m : Int)
    (hweapon : w.IsWeapon = true) (hstream : w.missileStrength = 0 ∧ w.antiMissile = 0)
    (hfresh : a.streamReload w = none) (hn : n ≠ 0) (hm : m ≠ 0) :
    ((a.Add G (some w) n).Add G (some w) m).streamReload w
        = (if n + m = 0 then none else some (n + m)) ∧
      ((a.Add G (some w) 2).Add G (some w) (-5)).streamReload w = some (-3) ∧
      ((a.Add G (some w) 2).Add G (some w) (-2)).streamReload w = none := by
  have key : ∀ n m : Int, n ≠ 0 → m ≠ 0 →
      ((a.Add G (some w) n).Add G (some w) m).streamReload w
        = (if n + m = 0 then none else some (n + m)) := by
    intro n m hn hm
    have h1 : (a.Add G (some w) n).streamReload w = some n := by
      simp [Armament.Add, hweapon, hstream.1, hstream.2, hfresh, hn]
    have h2 : ∀ b : Armament F A, b.streamReload w = some n →
        (b.Add G (some w) m).streamReload w = (if n + m = 0 then none else some (n + m)) := by
      intro b hb
      by_cases hz : n + m = 0 <;>
        simp [Armament.Add, hweapon, hstream.1, hstream.2, hb, hm, hz]
    exact h2 _ h1
  refine ⟨key n m hn hm, ?_, ?_⟩
  · simpa using key 2 (-5) (by decide) (by decide)
  · simpa using key 2 (-2) (by decide) (by decide)

/-- Witness of C6, amended: the blaster on a fresh rack with two gun slots. -/
theorem over_removal_keeps_stream_counter_witness :
    (((gunRack 2).Add upright (some (blaster 5)) 2).Add upright
        (some (blaster 5)) (-5)).streamReload (blaster 5) = some (-3) :=
  (over_removal_keeps_stream_counter upright (gunRack 2) (blaster 5) 2 (-5) rfl ⟨rfl, rfl⟩ rfl
    (by decide) (by decide)).2.1

/-- C7, counterexample: three blasters installed by `Add(w, 3)` on a rack with three
gun slots, a host that counts 3 copies, ticks that request a shot of every slot.
With reload 1 the second tick appends three projectiles of that type, and with
reload 2 the third tick appends two.  With reload `2^31` the first tick appends
three: the sum `0 + 2^31` does not fit into an `int`, so the stream counter is
`INT_MIN` after the first shot and blocks nothing. -/
theorem streaming_staggers_fire_counterexample :
    (shotsOf (blaster 1)
        (run upright ((gunRack 3).Add upright (some (blaster 1)) 3, host 3, [])
          [[0, 1, 2]]).2.2 = 1 ∧
      shotsOf (blaster 1)
        (tick upright (run upright ((gunRack 3).Add upright (some (blaster 1)) 3, host 3, [])
          [[0, 1, 2]]) [0, 1, 2]).2.2 = 4) ∧
    (shotsOf (blaster 2)
        (run upright ((gunRack 3).Add upright (some (blaster 2)) 3, host 3, [])
          [[0, 1, 2], [0, 1, 2]]).2.2 = 2 ∧
      shotsOf (blaster 2)
        (tick upright (run upright ((gunRack 3).Add upright (some (blaster 2)) 3, host 3, [])
          [[0, 1, 2], [0, 1, 2]]) [0, 1, 2]).2.2 = 4) ∧
    shotsOf (blaster (2 ^ 31))
      (tick upright ((gunRack 3).Add upright (some (blaster (2 ^ 31))) 3, host 3, [])
        [0, 1, 2]).2.2 = 3 := by
  decide!

/-- C7, amended: streaming staggers fire when the reload is at least the number of
copies.  For every reload attribute `r` with `3 <= r < 2^31`, on a rack where 3 copies of one
streamable weapon `w` with reload `r` were installed by `Armament::Add(w, 3)` (the
rack had no stream counter for `w` before; the host counts 3 copies), in every run
that repeats the tick "`Armament::Step` once, then `Armament::Fire` requests for any
slot indices", every tick appends at most one projectile of type `w`. -/
theorem streaming_staggers_fire [LinearOrderedField F] [FloorRing F] (G : Geometry F A)
    (a : Armament F A) (w : Outfit F) (ship : Ship F A) (sink : List (Projectile F A))
    (hweapon : w.IsWeapon = true) (hstream : w.missileStrength = 0 ∧ w.antiMissile = 0)
    (hfresh : a.streamReload w = none) (hr : 3 ≤ w.reload) (hr2 : w.reload < 2 ^ 31)
    (hcount : ship.OutfitCount w = 3) (ticks : List (List Int)) (requests : List Int) :
    shotsOf w (tick G (run G (a.Add G (some w) 3, ship, sink) ticks) requests).2.2
      ≤ shotsOf w (run G (a.Add G (some w) 3, ship, sink) ticks).2.2 + 1 := by
  have hr3 : ((3 : Int) : F) ≤ w.reload := by exact_mod_cast hr
  have h0 : runInv w 3 (a.Add G (some w) 3, ship, sink) := by
    refine ⟨hcount, 3, ?_⟩
    simp [Armament.Add, hweapon, hstream.1, hstream.2, hfresh]
  exact (tick_shots G w 3 hr3 hr2 requests _ (runInv_run G w 3 hr3 hr2 ticks _ h0)).2

/-- Witness of C7, amended: three blasters with reload 3, one tick after another. -/
theorem streaming_staggers_fire_witness :
    shotsOf (blaster 3)
        (tick upright (run upright ((gunRack 3).Add upright (some (blaster 3)) 3, host 3, [])
          [[0, 1, 2], [0, 1, 2]]) [0, 1, 2]).2.2
      ≤ shotsOf (blaster 3)
        (run upright ((gunRack 3).Add upright (some (blaster 3)) 3, host 3, [])
          [[0, 1, 2], [0, 1, 2]]).2.2 + 1 :=
  streaming_staggers_fire upright (gunRack 3) (blaster 3) (host 3) [] rfl ⟨rfl, rfl⟩ rfl
    (by decide) (by norm_num [blaster]) rfl [[0, 1, 2], [0, 1, 2]] [0, 1, 2]

/-- C8, counterexample: one blaster whose reload attribute is the integer `2^31`,
installed by `Add(w, 1)` on a rack with one gun slot, one `Step` with a host that
counts one copy.  `Fire` on the slot succeeds; the sum `0 + 2^31` does not fit into an
`int`, the reload counter of the slot and the stream counter become `INT_MIN`, and a
second `Fire` with no `Step` in between (`k = 0 < r`) appends a projectile again. -/
theorem single_copy_reloads_at_normal_interval_counterexample :
    (blaster (2 ^ 31)).reload = ((2 ^ 31 : Nat) : ℚ) ∧
      (Armament.Fire upright (primed (2 ^ 31) 1) 0 (host 1) []).2.2.length = 1 ∧
      (Armament.Fire upright (primed (2 ^ 31) 1) 0 (host 1) []).1.weapons.map
          (fun s => s.reload) = [-2 ^ 31] ∧
      (Armament.Fire upright (primed (2 ^ 31) 1) 0 (host 1) []).1.streamReload
          (blaster (2 ^ 31)) = some (-2 ^ 31) ∧
      (Armament.Fire upright
          ((Armament.Fire upright (primed (2 ^ 31) 1) 0 (host 1) []).1.StepN (host 1) 0) 0
          (host 1) []).2.2.length = 1 := by
  decide!

/-- C8, amended: a single copy reloads at its normal interval.  On a rack whose slot
`index` holds a weapon whose reload attribute is a natural number `r < 2^31` (its
reload counter not negative, or its type having a stream counter; both counters
above `INT_MIN`, so that `Step` can decrement them), with a host that counts one
copy: if `Armament::Fire` on that slot succeeds after an `Armament::Step`, then `Fire`
on that slot is a no-op after every number `k < r` of further `Step` calls, and
succeeds after exactly `r` further `Step` calls. -/
theorem single_copy_reloads_at_normal_interval [LinearOrderedField F] [FloorRing F]
    (G : Geometry F A) (a : Armament F A) (index : Int) (w : Weapon F A) (o : Outfit F)
    (r : Nat) (ship : Ship F A) (projectiles : List (Projectile F A))
    (hint : 0 ≤ index ∧ index < 2 ^ 31)
    (hslot : a.weapons[index.toNat]? = some w) (ho : w.outfit = some o)
    (hr : o.reload = (r : F)) (hr2 : r < 2 ^ 31) (hcount : ship.OutfitCount o = 1)
    (hreach : 0 ≤ w.reload ∨ (a.streamReload o).isSome = true)
    (hlow : -2 ^ 31 < w.reload ∧ ∀ c, a.streamReload o = some c → -2 ^ 31 < c)
    (a1 : Armament F A) (ship1 : Ship F A) (p : Projectile F A)
    (hfire : (a.Step ship).Fire G index ship projectiles = (a1, ship1, projectiles ++ [p])) :
    ∀ (host : Ship F A) (sink : List (Projectile F A)), host.OutfitCount o = 1 →
      (∀ k, k < r →
        (a1.StepN host k).Fire G index host sink = (a1.StepN host k, host, sink)) ∧
      ∃ a2 host2 q,
        (a1.StepN host r).Fire G index host sink = (a2, host2, sink ++ [q]) ∧ q.weapon = o := by
  have hu : toUnsigned index = index.toNat := toUnsigned_of_nonneg index hint.1 hint.2
  have hslot1 : (a.Step ship).weapons[toUnsigned index]? = some w.Step := by
    rw [hu]
    simp [Armament.Step, hslot]
  have ho1 : w.Step.outfit = some o := by rw [Weapon.Step_outfit, ho]
  rcases Armament.Fire_cases G (a.Step ship) index ship projectiles with hno | hyes
  · rw [hno] at hfire
    have := congrArg (fun t => t.2.2.length) hfire
    simp at this
  · obtain ⟨w1, o1, ship2, p2, hw1, ho2, hrl, hc, -, -, -⟩ := hyes
    rw [hslot1] at hw1
    cases hw1
    rw [ho1] at ho2
    cases ho2
    have hs : (a.Step ship).streamReload o = some 0
        ∨ ((a.Step ship).streamReload o = none ∧ w.Step.reload = 0) := by
      cases hso : a.streamReload o with
      | none =>
        right
        refine ⟨by simp [Armament.Step, hso], ?_⟩
        rcases hreach with h0 | h1
        · rw [Weapon.Step_reload] at hrl ⊢
          split_ifs at hrl ⊢ with hz <;> omega
        · rw [hso] at h1
          simp at h1
      | some c =>
        left
        have hval : (a.Step ship).streamReload o = some (max (c - 1) (1 - 1)) := by
          simp [Armament.Step, hso, hcount]
        have := hc _ hval
        rw [hval]
        congr 1
        omega
    have hlow1 : -2 ^ 31 ≤ w.Step.reload := by
      have h1 := hlow.1
      rw [Weapon.Step_reload]
      split_ifs <;> omega
    obtain ⟨a1c, ship1c, pc, hfc, -, -, hcycle⟩ :=
      fire_cycle G (a.Step ship) index w.Step o r hslot1 ho1 hr hr2 hrl hlow1 hs ship
        projectiles
    rw [hfc] at hfire
    have h1 := (Prod.mk.inj hfire).1
    subst h1
    exact hcycle

/-- Witness of C8, amended: one blaster with reload 5 on a rack with one gun slot
fires again after 5 further steps. -/
theorem single_copy_reloads_at_normal_interval_witness :
    ∃ a2 host2 q,
      Armament.Fire upright
          ((Armament.Fire upright (primed 5 1) 0 (host 1) []).1.StepN (host 1) 5) 0 (host 1) []
        = (a2, host2, [] ++ [q]) ∧ q.weapon = blaster 5 := by
  obtain ⟨ship1, p, hf, -, -⟩ :=
    Armament.Fire_of_ready upright (primed 5 1) 0 (host 1) []
      ⟨some (blaster 5), ⟨0, 0⟩, (), 0, false⟩ (blaster 5) (by decide!) (by decide) rfl
      (by decide!)
  have h := single_copy_reloads_at_normal_interval upright
    ((gunRack 1).Add upright (some (blaster 5)) 1) 0 ⟨some (blaster 5), ⟨0, 0⟩, (), 0, false⟩
    (blaster 5) 5 (host 1) [] (by decide) (by decide!) rfl (by simp [blaster])
    (by norm_num) rfl (Or.inl (by decide))
    ⟨by decide, fun c hc => by
      have h1 : ((gunRack 1).Add upright (some (blaster 5)) 1).streamReload (blaster 5)
          = some 1 := by decide
      rw [h1] at hc
      cases hc
      decide⟩
    _ ship1 p hf (host 1) [] rfl
  rw [hf]
  exact h.2

/-- C9, counterexample: a gun slot with a reload counter of 0 fires once.  With the
reload attribute `3/2` the counter becomes 1 and the slot is ready after one `Step`,
and `1 < 3/2`; with the reload attribute `1/2` the counter stays 0 and the slot is
ready after no `Step` at all, and `0 < 1/2`; with the reload attribute `2^31` the sum
does not fit into an `int`, the counter becomes `INT_MIN` and the slot is ready after
no `Step` at all. -/
theorem slot_reload_boundary_counterexample :
    ((Weapon.Fire upright (⟨some (blaster (3 / 2)), ⟨0, 0⟩, (), 0, false⟩ : Weapon ℚ Unit)
          (host 1) []).map fun r => (r.1.reload, (Weapon.Step^[1] r.1).IsReady))
        = some (1, true) ∧
      ((1 : Nat) : ℚ) < (blaster (3 / 2)).reload ∧
      ((Weapon.Fire upright (⟨some (blaster (1 / 2)), ⟨0, 0⟩, (), 0, false⟩ : Weapon ℚ Unit)
          (host 1) []).map fun r => (r.1.reload, (Weapon.Step^[0] r.1).IsReady))
        = some (0, true) ∧
      ((0 : Nat) : ℚ) < (blaster (1 / 2)).reload ∧
      ((Weapon.Fire upright (⟨some (blaster (2 ^ 31)), ⟨0, 0⟩, (), 0, false⟩ : Weapon ℚ Unit)
          (host 1) []).map fun r => (r.1.reload, (Weapon.Step^[0] r.1).IsReady))
        = some (-2 ^ 31, true) := by
  decide!

/-- C9, amended: a slot whose reload counter is 0 and that has just executed
`Weapon::Fire` once, with a weapon whose reload attribute `r` satisfies
`0 <= r < 2^31`, has the reload counter `⌊r⌋`; it is not ready after `n` calls of
`Weapon::Step` for every `n < ⌊r⌋` and is ready after `n` calls for every `n >= ⌊r⌋`.
When `r` is an integer it is not ready after `n < r` calls and is ready after `r`
calls. -/
theorem slot_reload_boundary [LinearOrderedField F] [FloorRing F] (G : Geometry F A)
    (w : Weapon F A) (o : Outfit F) (ship : Ship F A) (projectiles : List (Projectile F A))
    (ho : w.outfit = some o) (h0 : w.reload = 0) (hr0 : 0 ≤ o.reload)
    (hr1 : o.reload < 2 ^ 31) :
    ∃ fired ship1 projectiles1,
      w.Fire G ship projectiles = some (fired, ship1, projectiles1) ∧
      fired.reload = ⌊o.reload⌋ ∧
      (∀ n : Nat, (n : Int) < ⌊o.reload⌋ → (Weapon.Step^[n] fired).IsReady = false) ∧
      (∀ n : Nat, ⌊o.reload⌋ ≤ (n : Int) → (Weapon.Step^[n] fired).IsReady = true) ∧
      (∀ r : Nat, o.reload = (r : F) →
        (∀ n, n < r → (Weapon.Step^[n] fired).IsReady = false) ∧
        (Weapon.Step^[r] fired).IsReady = true) := by
  obtain ⟨ship1, p, hf, -, -⟩ := Weapon.Fire_some G w o ship projectiles ho
  have hsum : ((w.reload : Int) : F) + o.reload = o.reload := by
    rw [h0]
    simp
  have hfl : addAssign w.reload o.reload = ⌊o.reload⌋ := by
    rw [(addAssign_of_nonneg w.reload o.reload (by rw [hsum]; exact hr0)
      (by rw [hsum]; exact hr1)).1, hsum]
  have hnot : ∀ n : Nat, (n : Int) < ⌊o.reload⌋ →
      (Weapon.Step^[n] { w with reload := addAssign w.reload o.reload }).IsReady = false := by
    intro n hn
    apply Weapon.iterate_Step_notReady
    show (n : Int) < addAssign w.reload o.reload
    rw [hfl]
    exact hn
  have hrdy : ∀ n : Nat, ⌊o.reload⌋ ≤ (n : Int) →
      (Weapon.Step^[n] { w with reload := addAssign w.reload o.reload }).IsReady = true := by
    intro n hn
    refine Weapon.iterate_Step_ready n _ o ho ?_
    show addAssign w.reload o.reload ≤ n
    rw [hfl]
    exact hn
  refine ⟨_, ship1, _, hf, hfl, hnot, hrdy, ?_⟩
  intro r hr
  have hfr : ⌊o.reload⌋ = (r : Int) := by
    rw [hr]
    exact Int.floor_natCast r
  refine ⟨fun n hn => hnot n ?_, hrdy r (le_of_eq hfr)⟩
  rw [hfr]
  exact_mod_cast hn

/-- Witness of C9, amended: a gun slot holding a blaster with reload 5. -/
theorem slot_reload_boundary_witness :
    ∃ fired ship1 projectiles1,
      Weapon.Fire upright (⟨some (blaster 5), ⟨0, 0⟩, (), 0, false⟩ : Weapon ℚ Unit) (host 1) []
        = some (fired, ship1, projectiles1) ∧
      fired.reload = ⌊(blaster 5).reload⌋ ∧
      (∀ n : Nat, (n : Int) < ⌊(blaster 5).reload⌋ → (Weapon.Step^[n] fired).IsReady = false) ∧
      (∀ n : Nat, ⌊(blaster 5).reload⌋ ≤ (n : Int) → (Weapon.Step^[n] fired).IsReady = true) ∧
      (∀ r : Nat, (blaster 5).reload = (r : ℚ) →
        (∀ n, n < r → (Weapon.Step^[n] fired).IsReady = false) ∧
        (Weapon.Step^[r] fired).IsReady = true) :=
  slot_reload_boundary upright ⟨some (blaster 5), ⟨0, 0⟩, (), 0, false⟩ (blaster 5) (host 1) []
    rfl rfl (by norm_num [blaster]) (by norm_num [blaster])

/-- C10: the intercept solver returns the earliest feasible intercept.  Over exact
arithmetic (the square root exact), for every relative position `p`, relative
velocity `v` and projectile speed `s` with `v.v != s^2`: the result of
`RendevousTime(p, v, s)` is defined (not NaN) exactly when the quadratic
`(v.v - s^2) t^2 + 2 (p.v) t + p.p = 0` has a root `t >= 0`; it then returns the smallest such root, for which
`|p + v t|^2 = (s t)^2`, and `|p + v t| = s t` when `s >= 0`; it returns NaN when the
discriminant is negative and when every root is negative, in particular when
`|v| > s >= 0` and the target moves directly away (`v = k p` with `k > 0`). -/
theorem RendevousTime_earliest_intercept [LinearOrderedField F] (G : Geometry F A)
    (hsqrt : ∀ x : F, 0 ≤ x → 0 ≤ G.sqrt x ∧ G.sqrt x * G.sqrt x = x)
    (p v : Point F) (s : F) (ha : v.Dot v ≠ s * s) :
    (RendevousTime G p v s ≠ Dbl.nan ↔
      ∃ t, 0 ≤ t ∧ (v.Dot v - s * s) * t ^ 2 + 2 * p.Dot v * t + p.Dot p = 0) ∧
    ((∃ t, 0 ≤ t ∧ (v.Dot v - s * s) * t ^ 2 + 2 * p.Dot v * t + p.Dot p = 0) →
      ∃ t0, RendevousTime G p v s = Dbl.fin t0 ∧ 0 ≤ t0 ∧
        (v.Dot v - s * s) * t0 ^ 2 + 2 * p.Dot v * t0 + p.Dot p = 0 ∧
        (∀ u, 0 ≤ u → (v.Dot v - s * s) * u ^ 2 + 2 * p.Dot v * u + p.Dot p = 0 → t0 ≤ u) ∧
        (p.add (v.scale t0)).Dot (p.add (v.scale t0)) = (s * t0) ^ 2 ∧
        (0 ≤ s → (p.add (v.scale t0)).Length G = s * t0)) ∧
    ((2 * p.Dot v) ^ 2 - 4 * (v.Dot v - s * s) * p.Dot p < 0 →
      RendevousTime G p v s = Dbl.nan) ∧
    ((∀ t, (v.Dot v - s * s) * t ^ 2 + 2 * p.Dot v * t + p.Dot p = 0 → t < 0) →
      RendevousTime G p v s = Dbl.nan) ∧
    (∀ k, 0 < k → v = p.scale k → 0 ≤ s → s < v.Length G →
      RendevousTime G p v s = Dbl.nan) := by
  obtain ⟨hfin, hex, hcases⟩ := RendevousTime_spec G hsqrt p v s ha
  have hnan : (¬ ∃ t, 0 ≤ t ∧ (v.Dot v - s * s) * t ^ 2 + 2 * p.Dot v * t + p.Dot p = 0) →
      RendevousTime G p v s = Dbl.nan := by
    intro hno
    rcases hcases with h | ⟨t, ht⟩
    · exact h
    · exact absurd ⟨t, (hfin t ht).1, (hfin t ht).2.1⟩ hno
  refine ⟨⟨?_, ?_⟩, ?_, ?_, ?_, ?_⟩
  · intro hne
    by_contra hno
    exact hne (hnan hno)
  · intro hroot hn
    obtain ⟨t, ht⟩ := hex hroot
    rw [ht] at hn
    cases hn
  · intro hroot
    obtain ⟨t0, ht0⟩ := hex hroot
    obtain ⟨h0, hq, hmin⟩ := hfin t0 ht0
    have hdot : (p.add (v.scale t0)).Dot (p.add (v.scale t0)) = (s * t0) ^ 2 := by
      have e : (p.add (v.scale t0)).Dot (p.add (v.scale t0))
          = ((v.Dot v - s * s) * t0 ^ 2 + 2 * p.Dot v * t0 + p.Dot p) + (s * t0) ^ 2 := by
        simp only [Point.add, Point.scale, Point.Dot]
        ring
      rw [e, hq, zero_add]
    refine ⟨t0, ht0, h0, hq, hmin, hdot, ?_⟩
    intro hs
    unfold Point.Length
    rw [hdot]
    obtain ⟨hr0, hr1⟩ := hsqrt ((s * t0) ^ 2) (sq_nonneg _)
    have hst : 0 ≤ s * t0 := mul_nonneg hs h0
    have : G.sqrt ((s * t0) ^ 2) ^ 2 = (s * t0) ^ 2 := by rw [sq, hr1]
    exact (pow_left_inj₀ hr0 hst two_ne_zero).mp this
  · intro hD
    apply hnan
    rintro ⟨t, -, ht⟩
    have hq : (v.Dot v - s * s) * (t * t) + 2 * p.Dot v * t + p.Dot p = 0 := by
      rw [← ht]; ring
    have := discrim_eq_sq_of_quadratic_eq_zero hq
    rw [discrim] at this
    have hsq := sq_nonneg (2 * (v.Dot v - s * s) * t + 2 * p.Dot v)
    rw [← this] at hsq
    linarith
  · intro hneg
    apply hnan
    rintro ⟨t, ht0, ht⟩
    exact absurd (hneg t ht) (not_lt.mpr ht0)
  · intro k hk hv hs hlen
    apply hnan
    rintro ⟨t, ht0, ht⟩
    have hvv : 0 ≤ v.Dot v := by
      unfold Point.Dot
      nlinarith [mul_self_nonneg v.X, mul_self_nonneg v.Y]
    obtain ⟨hr0, hr1⟩ := hsqrt (v.Dot v) hvv
    unfold Point.Length at hlen
    have hss : s * s < v.Dot v := by
      rw [← hr1]
      exact mul_self_lt_mul_self hs hlen
    have hpp : 0 ≤ p.Dot p := by
      unfold Point.Dot
      nlinarith [mul_self_nonneg p.X, mul_self_nonneg p.Y]
    have hpv : p.Dot v = k * p.Dot p := by
      rw [hv]
      simp only [Point.scale, Point.Dot]
      ring
    have hvk : v.Dot v = k * k * p.Dot p := by
      rw [hv]
      simp only [Point.scale, Point.Dot]
      ring
    have h1 : 0 ≤ (v.Dot v - s * s) * t ^ 2 := mul_nonneg (by linarith) (sq_nonneg t)
    have h2 : 0 ≤ 2 * p.Dot v * t := by
      rw [hpv]
      exact mul_nonneg (mul_nonneg zero_le_two (mul_nonneg hk.le hpp)) ht0
    have hp0 : p.Dot p = 0 := by linarith
    rw [hvk, hp0, mul_zero] at hss
    nlinarith [mul_self_nonneg s]

/-- Witness of C10: over the real numbers with the real square root, a target at
`(3, 4)` moving with velocity `(1, 0)` and a projectile of speed 2. -/
theorem RendevousTime_earliest_intercept_witness :
    RendevousTime (uprightWith Real.sqrt) ⟨3, 4⟩ ⟨1, 0⟩ 2 ≠ Dbl.nan ↔
      ∃ t : ℝ, 0 ≤ t ∧ ((⟨1, 0⟩ : Point ℝ).Dot ⟨1, 0⟩ - 2 * 2) * t ^ 2
        + 2 * (⟨3, 4⟩ : Point ℝ).Dot ⟨1, 0⟩ * t + (⟨3, 4⟩ : Point ℝ).Dot ⟨3, 4⟩ = 0 :=
  (RendevousTime_earliest_intercept
    (uprightWith Real.sqrt)
    (fun x hx => ⟨Real.sqrt_nonneg x, Real.mul_self_sqrt hx⟩) ⟨3, 4⟩ ⟨1, 0⟩ 2
    (by norm_num [Point.Dot])).1

/-- C12, counterexample: a turret slot holding an anti-missile weapon of strength 1,
a missile of strength 1 at the mount position (in range).  The only draw in `[0, 1)`
is 0, for the weapon and for the missile, and `FireAntiMissile` returns false on it;
it also returns false on other values of `rand()`, which are taken modulo 1. -/
theorem antiMissile_kill_law_counterexample :
    toInt (interceptor 1 5).antiMissile = 1 ∧
      (missile 1 ⟨0, 0⟩).MissileStrength = 1 ∧
      (Weapon.FireAntiMissile upright (turretSlot (interceptor 1 5)) (host 1)
          (missile 1 ⟨0, 0⟩) [] 0 0).map (fun r => (r.1, r.2.1.reload)) = some (false, 5) ∧
      (Weapon.FireAntiMissile upright (turretSlot (interceptor 1 5)) (host 1)
          (missile 1 ⟨0, 0⟩) [] 7 0).map (fun r => (r.1, r.2.1.reload)) = some (false, 5) := by
  decide!

/-- C12, amended: the anti-missile kill law, with the two values of `rand()` as
inputs.  The strength is the anti-missile attribute of the weapon converted to `int`.
When the strength is 0, which it is for every attribute strictly between -1 and 1,
`FireAntiMissile` returns false and changes nothing.  When the strength and the
missile strength of the projectile are at least 1 and the projectile is in range,
then for draws `a` in `[0, strength)` and `b` in `[0, missile strength)` it returns
true exactly when `a > b`.  A pair of such draws for which it returns true exists
when the strength is at least 2; with strength 1 it never returns true. -/
theorem antiMissile_kill_law [LinearOrderedField F] [FloorRing F] (G : Geometry F A)
    (w : Weapon F A) (o : Outfit F) (ship : Ship F A) (projectile : Projectile F A)
    (effects : List (Effect F A)) (ho : w.outfit = some o) :
    (toInt o.antiMissile = 0 → ∀ rand1 rand2 : Nat,
      w.FireAntiMissile G ship projectile effects rand1 rand2
        = some (false, w, ship, effects)) ∧
    (-1 < o.antiMissile → o.antiMissile < 1 → toInt o.antiMissile = 0) ∧
    (1 ≤ toInt o.antiMissile → 1 ≤ projectile.MissileStrength →
      ¬ o.velocity
        < (projectile.Position.sub (ship.Position.add (G.Rotate ship.Facing w.point))).Length G →
      (∀ a b : Nat, (a : Int) < toInt o.antiMissile → (b : Int) < projectile.MissileStrength →
        (w.FireAntiMissile G ship projectile effects a b).map (fun r => r.1)
          = some (decide (a > b))) ∧
      (2 ≤ toInt o.antiMissile →
        ∃ a b : Nat, (a : Int) < toInt o.antiMissile ∧ (b : Int) < projectile.MissileStrength ∧
          (w.FireAntiMissile G ship projectile effects a b).map (fun r => r.1) = some true) ∧
      (toInt o.antiMissile = 1 → ∀ rand1 rand2 : Nat,
        (w.FireAntiMissile G ship projectile effects rand1 rand2).map (fun r => r.1)
          = some false)) := by
  refine ⟨?_, ?_, ?_⟩
  · intro h0 rand1 rand2
    exact FireAntiMissile_of_strength_zero G w o ship projectile effects rand1 rand2 ho h0
  · intro hlo hhi
    have ht : trunc o.antiMissile = 0 := by
      unfold trunc
      split_ifs with hpos
      · exact Int.floor_eq_zero_iff.mpr ⟨hpos, hhi⟩
      · exact Int.ceil_eq_zero_iff.mpr ⟨hlo, le_of_lt (not_le.mp hpos)⟩
    rw [toInt_of_range _ (by rw [ht]; norm_num), ht]
  · intro hs hm hr
    have hs0 : toInt o.antiMissile ≠ 0 := by omega
    have hm0 : projectile.MissileStrength ≠ 0 := by omega
    have hval : ∀ rand1 rand2 : Nat,
        (w.FireAntiMissile G ship projectile effects rand1 rand2).map (fun r => r.1)
          = some (decide (Int.tmod rand1 (toInt o.antiMissile)
              > Int.tmod rand2 projectile.MissileStrength)) := by
      intro rand1 rand2
      rw [FireAntiMissile_of_in_range G w o ship projectile effects rand1 rand2 ho hs0 hr,
        if_neg hm0]
      rfl
    have hdraw : ∀ a b : Nat, (a : Int) < toInt o.antiMissile →
        (b : Int) < projectile.MissileStrength →
        (w.FireAntiMissile G ship projectile effects a b).map (fun r => r.1)
          = some (decide (a > b)) := by
      intro a b ha hb
      rw [hval a b, Int.tmod_eq_of_lt (Int.ofNat_nonneg a) ha,
        Int.tmod_eq_of_lt (Int.ofNat_nonneg b) hb]
      simp
    refine ⟨hdraw, ?_, ?_⟩
    · intro h2
      refine ⟨1, 0, by omega, by omega, ?_⟩
      rw [hdraw 1 0 (by omega) (by omega)]
      simp
    · intro h1 rand1 rand2
      rw [hval rand1 rand2, h1, Int.tmod_one]
      have := Int.tmod_nonneg projectile.MissileStrength (Int.ofNat_nonneg rand2)
      simp only [gt_iff_lt, Option.some.injEq, decide_eq_false_iff_not, not_lt]
      exact this

/-- Witness of C12, amended: an anti-missile weapon of strength 4 against a missile of
strength 2 at the mount position; the draws `(1, 0)` kill it. -/
theorem antiMissile_kill_law_witness :
    (Weapon.FireAntiMissile upright (turretSlot (interceptor 4 5)) (host 1)
        (missile 2 ⟨0, 0⟩) [] 1 0).map (fun r => r.1) = some (decide (1 > 0)) :=
  (antiMissile_kill_law upright (turretSlot (interceptor 4 5)) (interceptor 4 5) (host 1)
    (missile 2 ⟨0, 0⟩) [] rfl).2.2 (by decide!) (by decide!) (by decide!) |>.1 1 0
      (by decide!) (by decide!)

/-- C14: mount compatibility.  In every rack reachable from an empty rack by any
sequence of `AddGunPort`, `AddTurret`, `Add`, `Fire`, `FireAntiMissile` and `Step`,
every installed outfit is a weapon and no gun (non-turret) slot holds a weapon whose
"turret mounts" attribute is set; `Weapon::Install` with a null outfit, with an
outfit that is not a weapon, or with a turret-mount weapon on a gun slot leaves the
slot (installed weapon, convergence angle, reload counter) unchanged. -/
theorem mount_compatibility [LinearOrderedField F] [FloorRing F] (G : Geometry F A)
    (a : Armament F A) (h : Reachable G (fun _ => True) a) :
    (∀ s ∈ a.weapons, ∀ o, s.outfit = some o →
      o.IsWeapon = true ∧ (s.isTurret = false → o.turretMounts = 0)) ∧
    (∀ (s : Weapon F A) (outfit : Option (Outfit F)),
      (outfit = none ∨ ∃ o, outfit = some o ∧
        (o.IsWeapon = false ∨ (o.turretMounts ≠ 0 ∧ s.isTurret = false))) →
      s.Install G outfit = s) := by
  constructor
  · refine Reachable.slots G (fun _ => True)
      (fun s => ∀ o, s.outfit = some o →
        o.IsWeapon = true ∧ (s.isTurret = false → o.turretMounts = 0))
      ?_ ?_ ?_ ?_ ?_ a h
    · intro point t o ho
      simp [Weapon.create] at ho
    · intro s o hQ _ o1 ho1
      rw [Install_some] at ho1 ⊢
      by_cases hg : (o.IsWeapon && (decide (o.turretMounts = 0) || s.isTurret)) = true
      · rw [if_pos hg] at ho1 ⊢
        simp only [Bool.and_eq_true, Bool.or_eq_true, decide_eq_true_eq] at hg
        have ho2 : o1 = o := by
          split_ifs at ho1 <;> simpa using ho1.symm
        subst ho2
        refine ⟨hg.1, fun ht => ?_⟩
        have ht1 : s.isTurret = false := by
          split_ifs at ht <;> simpa using ht
        rcases hg.2 with h0 | h1
        · exact h0
        · rw [ht1] at h1
          cases h1
      · rw [if_neg hg] at ho1 ⊢
        exact hQ o1 ho1
    · intro s _ o ho
      simp [Weapon.Uninstall] at ho
    · intro s o hQ _ _ o1 ho1
      exact hQ o1 ho1
    · intro s hQ o ho
      have h1 := hQ o (by rw [← ho, Weapon.Step_outfit])
      refine ⟨h1.1, fun ht => h1.2 ?_⟩
      unfold Weapon.Step at ht
      split_ifs at ht <;> simpa using ht
  · intro s outfit hcase
    rcases hcase with h0 | ⟨o, ho, h1 | ⟨h2, h3⟩⟩
    · rw [h0]
      rfl
    · rw [ho]
      simp [Weapon.Install, h1]
    · rw [ho]
      simp [Weapon.Install, h2, h3]

/-- Witness of C14: the rack with one gun slot after `Add(blaster, 1)`. -/
theorem mount_compatibility_witness :
    (blaster 5).IsWeapon = true ∧
      ((⟨some (blaster 5), ⟨0, 0⟩, (), 0, false⟩ : Weapon ℚ Unit).isTurret = false →
        (blaster 5).turretMounts = 0) :=
  (mount_compatibility upright ((Armament.empty.AddGunPort upright ⟨0, 0⟩).Add upright
      (some (blaster 5)) 1)
    (Reachable.add _ _ _ (Reachable.addGunPort _ _ Reachable.empty) (fun _ _ => trivial))).1
    ⟨some (blaster 5), ⟨0, 0⟩, (), 0, false⟩ (by decide!) (blaster 5) rfl

/-- C15, the code at the failing input: a ready turret slot holding an anti-missile
weapon of strength 1 and an incoming projectile of missile strength 0 at the mount
position, in range.  `Weapon::FireAntiMissile` reaches `rand() % 0` and has no
result, on the slot and through `Armament::FireAntiMissile`; with a missile strength
of 1 the same call returns a boolean. -/
theorem antiMissile_modulo_by_zero :
    (turretSlot (interceptor 1 5)).IsReady = true ∧
      1 ≤ toInt (interceptor 1 5).antiMissile ∧
      (missile 0 ⟨0, 0⟩).MissileStrength = 0 ∧
      ¬ (interceptor 1 5).velocity
        < (((missile 0 ⟨0, 0⟩).Position.sub
            ((host 1).Position.add (upright.Rotate (host 1).Facing
              (turretSlot (interceptor 1 5)).point))).Length upright) ∧
      (Weapon.FireAntiMissile upright (turretSlot (interceptor 1 5)) (host 1)
          (missile 0 ⟨0, 0⟩) [] 0 0).isNone = true ∧
      (Armament.FireAntiMissile upright
          { weapons := [turretSlot (interceptor 1 5)], streamReload := fun _ => none } 0
          (host 1) (missile 0 ⟨0, 0⟩) [] 0 0).isNone = true ∧
      (Weapon.FireAntiMissile upright (turretSlot (interceptor 1 5)) (host 1)
          (missile 1 ⟨0, 0⟩) [] 0 0).isSome = true := by
  decide!

/-- C16, counterexample: on a fresh rack with one gun slot, `Add(blaster, 1)`, one
`Step` with a host that counts one copy, then `Add(blaster, -1)`.  The last copy is
removed, no slot holds the type, and the stream-counter table still has an entry for
it, with the value `-1`. -/
theorem stream_table_counterexample :
    (primed 5 1).weapons.map (fun s => s.outfit) = [some (blaster 5)] ∧
      (host 1).OutfitCount (blaster 5) = 1 ∧
      (primed 5 1).streamReload (blaster 5) = some 0 ∧
      ((primed 5 1).Add upright (some (blaster 5)) (-1)).weapons.map (fun s => s.outfit)
        = [none] ∧
      ((primed 5 1).Add upright (some (blaster 5)) (-1)).streamReload (blaster 5)
        = some (-1) := by
  decide!

/-- C16, amended: the rule of the stream-counter table.  `Armament::Add(type, count)`
with a streamable weapon type and a count that is not zero sets the stream counter
of the type to `count` when it had none, deletes it when the old value and `count`
add up to zero, and sets it to their sum otherwise; other entries are unchanged.  So
`Add(type, n)` directly followed by `Add(type, -n)` leaves no entry, while after
`Add(type, 1)`, a `Step` with a host that counts one copy and `Add(type, -1)` the
entry is still there, with the value `-1`.  In every reachable rack an entry exists
only for a streamable weapon type. -/
theorem stream_table_rule [LinearOrderedField F] [FloorRing F] (G : Geometry F A)
    (a : Armament F A) (w : Outfit F) (count : Int) (hweapon : w.IsWeapon = true)
    (hstream : w.missileStrength = 0 ∧ w.antiMissile = 0) (hcount : count ≠ 0) :
    ((a.Add G (some w) count).streamReload w
      = match a.streamReload w with
        | none => some count
        | some c => if c + count = 0 then none else some (c + count)) ∧
    (∀ o, o ≠ w → (a.Add G (some w) count).streamReload o = a.streamReload o) ∧
    (a.streamReload w = none →
      ((a.Add G (some w) count).Add G (some w) (-count)).streamReload w = none) ∧
    (∀ ship : Ship F A, a.streamReload w = none → ship.OutfitCount w = 1 →
      (((a.Add G (some w) 1).Step ship).Add G (some w) (-1)).streamReload w = some (-1)) ∧
    (∀ P, Reachable G P a → ∀ o c, a.streamReload o = some c →
      o.IsWeapon = true ∧ o.missileStrength = 0 ∧ o.antiMissile = 0) := by
  refine ⟨Add_stream G a w count hweapon hstream hcount,
    fun o ho => Add_stream_other G a w o count ho, ?_, ?_,
    fun P h => Reachable.stream G P a h⟩
  · intro hnone
    have h1 := Add_stream G a w count hweapon hstream hcount
    rw [hnone] at h1
    rw [Add_stream G _ w (-count) hweapon hstream (neg_ne_zero.mpr hcount), h1]
    simp
  · intro ship hnone hship
    have h1 := Add_stream G a w 1 hweapon hstream one_ne_zero
    rw [hnone] at h1
    have h2 : ((a.Add G (some w) 1).Step ship).streamReload w = some 0 := by
      simp [Armament.Step, h1, hship]
    rw [Add_stream G _ w (-1) hweapon hstream (by decide), h2]
    simp

/-- Witness of C16, amended: `Add(blaster, 1)` on a fresh rack with one gun slot. -/
theorem stream_table_rule_witness :
    ((gunRack 1).Add upright (some (blaster 5)) 1).streamReload (blaster 5)
      = match (gunRack 1).streamReload (blaster 5) with
        | none => some 1
        | some c => if c + 1 = 0 then none else some (c + 1) :=
  (stream_table_rule upright (gunRack 1) (blaster 5) 1 rfl ⟨rfl, rfl⟩ (by decide)).1

/-- C17, counterexample: a gun slot with mount offset `(0, 7)`, so with `x = 0`, and a
weapon with range 0.  The argument of `asin` is `0 / 0` and the convergence angle in
degrees is NaN, not 0. -/
theorem zero_offset_convergence_counterexample :
    (Weapon.create upright ⟨0, 7⟩ false).point.X = 0 ∧
      convergence upright (Weapon.create upright ⟨0, 7⟩ false).point
          ({ blaster 5 with range := 0 } : Outfit ℚ).range = Dbl.nan ∧
      convergence upright (Weapon.create upright ⟨0, 7⟩ false).point
          ({ blaster 5 with range := 0 } : Outfit ℚ).range ≠ Dbl.fin 0 := by
  decide!

/-- C17, amended: zero-offset convergence.  For every gun (non-turret) slot whose
mount point has `x = 0` and every gun weapon, `Weapon::Install` sets the convergence
angle to the angle of `asin(point.x * 0.5 / (range * 0.9))` in degrees; that value is
exactly 0 whenever the range attribute is not zero, and it is NaN (from `0 / 0`)
when the range is 0.  A slot built from a mount offset with `x = 0` has a mount
point with `x = 0`. -/
theorem zero_offset_convergence [LinearOrderedField F] (G : Geometry F A)
    (s : Weapon F A) (o : Outfit F) (hasin : G.asin 0 = 0) (hgun : s.isTurret = false)
    (hx : s.point.X = 0) (hweapon : o.IsWeapon = true) (hmount : o.turretMounts = 0) :
    (s.Install G (some o)).angle = G.Angle (convergence G s.point o.range) ∧
    (o.range ≠ 0 → convergence G s.point o.range = Dbl.fin 0) ∧
    (o.range = 0 → convergence G s.point o.range = Dbl.nan) ∧
    (∀ offset : Point F, offset.X = 0 → (Weapon.create G offset false).point.X = 0) := by
  refine ⟨?_, ?_, ?_, ?_⟩
  · simp [Install_some, hweapon, hmount, hgun]
  · intro hr
    have hd : o.range * (9 / 10) ≠ 0 := mul_ne_zero hr (by norm_num)
    unfold convergence
    simp only [hx, zero_mul, dbl_div_of_ne_zero _ _ hd, zero_div, Dbl.asin]
    rw [if_pos (by constructor <;> norm_num)]
    simp [Dbl.scale, hasin]
  · intro hr
    unfold convergence
    simp [hx, hr, Dbl.div, Dbl.asin, Dbl.scale]
  · intro offset h0
    simp [Weapon.create, Point.scale, h0]

/-- Witness of C17, amended: a gun slot at offset `(0, 7)` and the blaster of range
100. -/
theorem zero_offset_convergence_witness :
    convergence upright (Weapon.create upright ⟨0, 7⟩ false).point (blaster 5).range
      = Dbl.fin 0 :=
  (zero_offset_convergence upright (Weapon.create upright ⟨0, 7⟩ false) (blaster 5) rfl rfl
    (by decide!) rfl rfl).2.1 (by decide)

/-- C18, the code at the failing input: a wormhole with the links `A -> B` and
`C -> D`, loaded from a definition whose only child is `remove link A B`.  The child
is the first one with the key `link` and is not an `add`, so the loop clears the link
map before it looks for `A -> B`: the result has no link at all, where `C -> D`
should remain.  A wormhole that has only `C -> D`, and so no entry `A -> B`, loses
its link as well. -/
theorem Load_remove_link_clears_all :
    (twoLinks.Load removeLinkAB).links = [] ∧
      (twoLinks.Load removeLinkAB).links ≠ [(⟨"C"⟩, ⟨"D"⟩)] ∧
      (({ links := [(⟨"C"⟩, ⟨"D"⟩)] } : Wormhole).Load removeLinkAB).links = [] := by
  decide

/-- C19: auto-generated wormhole links form one closed loop.  For every planet whose
systems `s_0 .. s_{n-1}` are pairwise different and in each of which the wormhole has
a sprite, after `Wormhole::LoadFromPlanet` the link map has exactly `n` entries, one
per system; `WormholeDestination(s_i)` is `s_{(i+1) mod n}` and
`WormholeSource(s_{(i+1) mod n})` is `s_i`; `WormholeDestination` applied `n` times
to a system of the planet gives the system back; for a system that is not one of the
planet's, and in any wormhole for a system without a link, `WormholeDestination` and
`WormholeSource` return the argument. -/
theorem generated_links_closed_loop (w : Wormhole) (planet : Planet)
    (hnodup : planet.Systems.Nodup)
    (hsprite : ∀ s ∈ planet.Systems, planet.HasSprite s = true) :
    (w.LoadFromPlanet planet).links.length = planet.Systems.length ∧
    (w.LoadFromPlanet planet).links.map Prod.fst = planet.Systems ∧
    (∀ i s t, planet.Systems[i]? = some s →
      planet.Systems[(i + 1) % planet.Systems.length]? = some t →
      (w.LoadFromPlanet planet).WormholeDestination s = t ∧
        (w.LoadFromPlanet planet).WormholeSource t = s) ∧
    (∀ s ∈ planet.Systems,
      (w.LoadFromPlanet planet).WormholeDestination^[planet.Systems.length] s = s) ∧
    (∀ s, s ∉ planet.Systems →
      (w.LoadFromPlanet planet).WormholeDestination s = s ∧
        (w.LoadFromPlanet planet).WormholeSource s = s) ∧
    (∀ (v : Wormhole) (s : System),
      (Links.find v.links s = none → v.WormholeDestination s = s) ∧
      ((∀ e ∈ v.links, e.2 ≠ s) → v.WormholeSource s = s)) := by
  have hlinks := LoadFromPlanet_links w planet hnodup hsprite
  have hgen : ∀ (v : Wormhole) (s : System),
      (Links.find v.links s = none → v.WormholeDestination s = s) ∧
      ((∀ e ∈ v.links, e.2 ≠ s) → v.WormholeSource s = s) := by
    intro v s
    constructor
    · intro h
      unfold Wormhole.WormholeDestination
      rw [h]
    · intro h
      unfold Wormhole.WormholeSource
      have : List.find? (fun val => decide (val.2 = s)) v.links = none := by
        rw [List.find?_eq_none]
        intro e he
        simpa using h e he
      rw [this]
  refine ⟨?_, ?_, ?_, ?_, ?_, hgen⟩
  · rw [hlinks]
    simp
  · rw [hlinks]
    exact List.map_fst_zip _ _ (by simp)
  · intro i s t hs ht
    exact loop_step w planet hnodup hsprite i s t hs ht
  · intro s hs
    obtain ⟨i, hi⟩ := List.mem_iff_getElem?.mp hs
    have hlt := (List.getElem?_eq_some_iff.mp hi).1
    have h := loop_iterate w planet hnodup hsprite planet.Systems.length i s hi
    rw [Nat.add_mod_right, Nat.mod_eq_of_lt hlt, hi] at h
    exact (Option.some.inj h).symm
  · intro s hs
    constructor
    · apply (hgen _ s).1
      unfold Links.find
      rw [hlinks, List.find?_eq_none]
      intro e he
      have hm : (e.1, e.2) ∈ planet.Systems.zip (planet.Systems.rotate 1) := he
      have := (List.of_mem_zip hm).1
      simp only [decide_eq_true_eq]
      intro heq
      exact hs (heq ▸ this)
    · apply (hgen _ s).2
      rw [hlinks]
      intro e he heq
      have hm : (e.1, e.2) ∈ planet.Systems.zip (planet.Systems.rotate 1) := he
      have := (List.of_mem_zip hm).2
      rw [List.mem_rotate] at this
      exact hs (heq ▸ this)

/-- Witness of C19: a planet in the systems `S0`, `S1` and `S2`. -/
theorem generated_links_closed_loop_witness :
    ((({} : Wormhole).LoadFromPlanet threeSystems).links.length
      = threeSystems.Systems.length) ∧
      (({} : Wormhole).LoadFromPlanet threeSystems).links.map Prod.fst
        = threeSystems.Systems :=
  ⟨(generated_links_closed_loop {} threeSystems (by decide) (fun _ _ => rfl)).1,
    (generated_links_closed_loop {} threeSystems (by decide) (fun _ _ => rfl)).2.1⟩

/-- C20, counterexample: a blaster whose reload attribute is `2^31`, which is not
negative, installed by `Add` on a rack with one gun slot; after one `Step` and one
`Fire` the rack is reachable and the reload counter of its slot is `INT_MIN`: the sum
`0 + 2^31` does not fit into an `int`. -/
theorem reload_counters_nonneg_counterexample :
    0 ≤ (blaster (2 ^ 31)).reload ∧
      Reachable upright (fun o => 0 ≤ o.reload)
        (Armament.Fire upright (primed (2 ^ 31) 1) 0 (host 1) []).1 ∧
      (Armament.Fire upright (primed (2 ^ 31) 1) 0 (host 1) []).1.weapons.map
          (fun s => (s.reload, decide (s.reload < 0))) = [(-2 ^ 31, true)] :=
  ⟨by decide!,
    Reachable.fire _ _ _ _ (Reachable.step _ _ (Reachable.add _ _ _
      (Reachable.addGunPort _ _ Reachable.empty) (fun o ho => by cases ho; decide!))),
    by decide!⟩

/-- C20, amended: reload counters never go negative.  If every outfit given to `Add`
has a reload attribute `r` with `0 <= r < 2^31`, then in every rack reachable from a
freshly constructed rack by any sequence of `AddGunPort`, `AddTurret`, `Add`, `Fire`,
`FireAntiMissile` and `Step` every slot has a reload counter `>= 0`; hence
`Weapon::Step` moves the counter to `max(counter - 1, 0)`, and a slot is ready
exactly when it holds a weapon and its counter is 0. -/
theorem reload_counters_nonneg [LinearOrderedField F] [FloorRing F] (G : Geometry F A)
    (a : Armament F A) (h : Reachable G (fun o => 0 ≤ o.reload ∧ o.reload < 2 ^ 31) a) :
    ∀ s ∈ a.weapons, 0 ≤ s.reload ∧ s.Step.reload = max (s.reload - 1) 0 ∧
      (s.IsReady = true ↔ s.outfit.isSome = true ∧ s.reload = 0) := by
  have hinv := Reachable.slots G (fun o => 0 ≤ o.reload ∧ o.reload < 2 ^ 31)
    (fun s => 0 ≤ s.reload ∧ ∀ o, s.outfit = some o → 0 ≤ o.reload ∧ o.reload < 2 ^ 31)
    (by
      intro point t
      simp [Weapon.create])
    (by
      intro s o hQ hP
      rw [Install_some]
      split_ifs
      · exact ⟨hQ.1, fun o1 ho1 => by cases ho1; exact hP⟩
      · exact ⟨hQ.1, fun o1 ho1 => by cases ho1; exact hP⟩
      · exact hQ)
    (by
      intro s hQ
      exact ⟨hQ.1, fun o ho => by simp [Weapon.Uninstall] at ho⟩)
    (by
      intro s o hQ ho hle
      refine ⟨?_, hQ.2⟩
      show 0 ≤ addAssign s.reload o.reload
      have hz : s.reload = 0 := le_antisymm hle hQ.1
      have hsum : ((s.reload : Int) : F) + o.reload = o.reload := by
        rw [hz]
        simp
      obtain ⟨hr0, hr1⟩ := hQ.2 o ho
      exact (addAssign_of_nonneg s.reload o.reload (by rw [hsum]; exact hr0)
        (by rw [hsum]; exact hr1)).2.1)
    (by
      intro s hQ
      refine ⟨?_, fun o ho => hQ.2 o (by rw [← ho, Weapon.Step_outfit])⟩
      rw [Weapon.Step_reload]
      split_ifs <;> omega)
    a h
  intro s hs
  obtain ⟨h0, -⟩ := hinv s hs
  refine ⟨h0, ?_, ?_⟩
  · rw [Weapon.Step_reload]
    split_ifs <;> omega
  · rw [Weapon.IsReady_iff]
    constructor
    · rintro ⟨⟨o, ho⟩, hle⟩
      exact ⟨by simp [ho], by omega⟩
    · rintro ⟨hsome, hz⟩
      exact ⟨Option.isSome_iff_exists.mp hsome, by omega⟩

/-- Witness of C20, amended: the rack with one gun slot after `Add(blaster, 1)` and a
shot. -/
theorem reload_counters_nonneg_witness :
    0 ≤ (⟨some (blaster 5), ⟨0, 0⟩, (), 5, false⟩ : Weapon ℚ Unit).reload ∧
      (⟨some (blaster 5), ⟨0, 0⟩, (), 5, false⟩ : Weapon ℚ Unit).Step.reload
        = max ((⟨some (blaster 5), ⟨0, 0⟩, (), 5, false⟩ : Weapon ℚ Unit).reload - 1) 0 ∧
      ((⟨some (blaster 5), ⟨0, 0⟩, (), 5, false⟩ : Weapon ℚ Unit).IsReady = true ↔
        (⟨some (blaster 5), ⟨0, 0⟩, (), 5, false⟩ : Weapon ℚ Unit).outfit.isSome = true ∧
          (⟨some (blaster 5), ⟨0, 0⟩, (), 5, false⟩ : Weapon ℚ Unit).reload = 0) :=
  reload_counters_nonneg upright (Armament.Fire upright (primed 5 1) 0 (host 1) []).1
    (Reachable.fire _ _ _ _ (Reachable.step _ _ (Reachable.add _ _ _
      (Reachable.addGunPort _ _ Reachable.empty) (fun o ho => by cases ho; decide!))))
    ⟨some (blaster 5), ⟨0, 0⟩, (), 5, false⟩ (by decide!)

end Claims

end EndlessSky
